import Mathlib

/-!
Verification of the graph state synchronization subsystem of kube-universe:
the server-side delta tracker (`pkg/delta`), the broadcast hub's fan-out
(`pkg/websocket`), and the client-side reconciler (`web/js/websocket.js`),
shallowly embedded in Lean.
-/

namespace KubeUniverse

/-- A Go primitive value as it can appear inside a `ResourceInfo` bag
(`map[string]interface{}` in `pkg/types`). -/
inductive GoPrim where
  | s : String → GoPrim
  | i : Int → GoPrim
  | b : Bool → GoPrim
deriving DecidableEq, Repr

/-- How Go's `fmt.Sprintf("%v", item)` renders a primitive value
(used by `interfaceSlicesEqualIgnoreOrder`). -/
def goFormat : GoPrim → String
  | .s x => x
  | .i n => toString n
  | .b true => "true"
  | .b false => "false"

/-- A value stored under a `ResourceInfo` key: a scalar, a `[]string`,
or a `[]interface{}` of scalars. -/
inductive RValue where
  | prim : GoPrim → RValue
  | strList : List String → RValue
  | primList : List GoPrim → RValue
deriving DecidableEq, Repr

/-- A Go `map[string]string` (`Labels` / `Annotations`): an association list
whose keys are unique, as Go maps guarantee. -/
structure StrMap where
  entries : List (String × String)
  nodupKeys : (entries.map Prod.fst).Nodup

instance : DecidableEq StrMap := fun a b =>
  if h : a.entries = b.entries then
    .isTrue (by cases a; cases b; cases h; rfl)
  else .isFalse (fun hh => h (congrArg StrMap.entries hh))

/-- A Go `map[string]interface{}` (`ResourceInfo`): an association list with
unique keys holding `RValue`s. -/
structure RInfo where
  entries : List (String × RValue)
  nodupKeys : (entries.map Prod.fst).Nodup

instance : DecidableEq RInfo := fun a b =>
  if h : a.entries = b.entries then
    .isTrue (by cases a; cases b; cases h; rfl)
  else .isFalse (fun hh => h (congrArg RInfo.entries hh))

/-- `kutype.Node` as used throughout `pkg/delta` and `pkg/renderer`
(the field `Namespace` is spelled `namespc` because `namespace` is reserved
in Lean). -/
structure Node where
  id : String
  name : String
  type : String
  namespc : String
  status : String
  statusMessage : String
  creationTime : String
  age : String
  labels : StrMap
  annotations : StrMap
  resourceInfo : RInfo
deriving DecidableEq

/-- `kutype.Link`. -/
structure Link where
  source : String
  target : String
  value : Int
  relationship : String
deriving DecidableEq

/-- `kutype.Graph`: node and link collections are pointers to slices in Go,
so each can be absent (`none` models a nil pointer). -/
structure Graph where
  nodes : Option (List Node)
  links : Option (List Link)

/-- `delta.LinkRef`: a link reference for removal. -/
structure LinkRef where
  source : String
  target : String
deriving DecidableEq, Repr

/-- `delta.DeltaUpdate`. -/
structure DeltaUpdate where
  type : String
  nodes : List Node
  links : List Link
  removedNodes : List String
  removedLinks : List LinkRef
deriving DecidableEq

/-- `delta.DeltaTracker`: previous nodes keyed by id, previous links keyed
by the string `Source ++ "-" ++ Target`, both modelled as insertion-ordered
association lists (Go map semantics: insert replaces the entry for an
existing key). -/
structure DeltaTracker where
  previousNodes : List (String × Node)
  previousLinks : List (String × Link)
deriving DecidableEq

/-- `delta.NewDeltaTracker`. -/
def NewDeltaTracker : DeltaTracker := ⟨[], []⟩

/-- Go map lookup returning an `Option` (`v, ok := m[k]`). -/
def lookupA {α : Type} (m : List (String × α)) (k : String) : Option α :=
  (m.find? (fun p => p.1 == k)).map Prod.snd

/-- Go map insertion `m[k] = v`: replace the entry if the key exists,
otherwise append it. -/
def upsert {α : Type} (m : List (String × α)) (k : String) (v : α) :
    List (String × α) :=
  if m.any (fun p => p.1 == k) then
    m.map (fun p => if p.1 == k then (k, v) else p)
  else m ++ [(k, v)]

/-- The link key `fmt.Sprintf("%s-%s", link.Source, link.Target)`. -/
def linkKey (l : Link) : String := l.source ++ "-" ++ l.target

/-- The node map built by the loop `for _, node := range nodes`
(`currentNodes[node.Id] = node`). -/
def buildNodeMap (ns : List Node) : List (String × Node) :=
  ns.foldl (fun m n => upsert m n.id n) []

/-- The link map built by the loop `for _, link := range links`
(`currentLinks[linkKey] = link`). -/
def buildLinkMap (ls : List Link) : List (String × Link) :=
  ls.foldl (fun m l => upsert m (linkKey l) l) []

/-- `mapsEqual` from `pkg/delta`: same length and, for every entry of `a`,
the Go lookup `b[k]` (with `""` for a missing key) matches the value. -/
def goLookupStr (m : List (String × String)) (k : String) : String :=
  match m.find? (fun p => p.1 == k) with
  | some p => p.2
  | none => ""

/-- `delta.mapsEqual`. -/
def mapsEqual (a b : StrMap) : Bool :=
  a.entries.length == b.entries.length &&
    a.entries.all (fun p => goLookupStr b.entries p.1 == p.2)

/-- `delta.stringSlicesEqualIgnoreOrder`: equal lengths and equal frequency
maps (element counts agree on every element of either list). -/
def stringSlicesEqualIgnoreOrder (a b : List String) : Bool :=
  a.length == b.length && (a ++ b).all (fun s => a.count s == b.count s)

/-- `delta.arraysEqualIgnoreOrder`: `[]string` and `[]interface{}` slices are
compared as multisets (the latter after `%v` formatting); everything else
falls back to `reflect.DeepEqual`, i.e. structural equality. -/
def arraysEqualIgnoreOrder (a b : RValue) : Bool :=
  match a, b with
  | .strList xs, .strList ys => stringSlicesEqualIgnoreOrder xs ys
  | .primList xs, .primList ys =>
      stringSlicesEqualIgnoreOrder (xs.map goFormat) (ys.map goFormat)
  | _, _ => a == b

/-- The allow-list `orderIgnoredArrayFields` of `delta.resourceInfoEqual`. -/
def orderIgnoredArrayFields : List String :=
  ["key_names", "conditions", "external_ips", "image_pull_secrets",
   "volumes", "containers", "ports", "rules", "hosts", "secrets"]

/-- Go map lookup into a `ResourceInfo` bag. -/
def lookupRI (m : List (String × RValue)) (k : String) : Option RValue :=
  (m.find? (fun p => p.1 == k)).map Prod.snd

/-- `delta.resourceInfoEqual`. -/
def resourceInfoEqual (a b : RInfo) : Bool :=
  a.entries.length == b.entries.length &&
    a.entries.all (fun p =>
      match lookupRI b.entries p.1 with
      | none => false
      | some vb =>
          if orderIgnoredArrayFields.contains p.1 then
            arraysEqualIgnoreOrder p.2 vb
          else p.2 == vb)

/-- `delta.nodesEqual`. -/
def nodesEqual (a b : Node) : Bool :=
  a.id == b.id && a.name == b.name && a.type == b.type &&
  a.namespc == b.namespc && a.status == b.status &&
  a.statusMessage == b.statusMessage && a.creationTime == b.creationTime &&
  a.age == b.age &&
  mapsEqual a.labels b.labels &&
  mapsEqual a.annotations b.annotations &&
  resourceInfoEqual a.resourceInfo b.resourceInfo

/-- The new/updated-node loop of `GenerateDelta`. -/
def deltaNodesOf (prev : List (String × Node)) (current : List (String × Node)) :
    List Node :=
  current.filterMap (fun q =>
    match lookupA prev q.1 with
    | none => some q.2
    | some previousNode =>
        if nodesEqual previousNode q.2 then none else some q.2)

/-- The removed-node loop of `GenerateDelta`. -/
def removedNodesOf (prev : List (String × Node)) (current : List (String × Node)) :
    List String :=
  prev.filterMap (fun q =>
    if (lookupA current q.1).isSome then none else some q.1)

/-- The new-link loop of `GenerateDelta`. -/
def deltaLinksOf (prev : List (String × Link)) (current : List (String × Link)) :
    List Link :=
  current.filterMap (fun q =>
    if (lookupA prev q.1).isSome then none else some q.2)

/-- The removed-link loop of `GenerateDelta`. -/
def removedLinksOf (prev : List (String × Link)) (current : List (String × Link)) :
    List LinkRef :=
  prev.filterMap (fun q =>
    if (lookupA current q.1).isSome then none
    else some ⟨q.2.source, q.2.target⟩)

/-- `DeltaTracker.updatePreviousState`. -/
def updatePreviousState (ns : List Node) (ls : List Link) : DeltaTracker :=
  { previousNodes := buildNodeMap ns, previousLinks := buildLinkMap ls }

/-- `DeltaTracker.GenerateDelta`. The Go method mutates its receiver and
returns `(*DeltaUpdate, error)`; here the updated tracker is returned
alongside the result (on error the tracker is returned untouched, matching
the early `return nil, fmt.Errorf(...)`). -/
def GenerateDelta (dt : DeltaTracker) (currentGraph : Option Graph) :
    Except String (Option DeltaUpdate) × DeltaTracker :=
  match currentGraph with
  | none => (.error "invalid graph data", dt)
  | some g =>
    match g.nodes, g.links with
    | none, _ => (.error "invalid graph data", dt)
    | some _, none => (.error "invalid graph data", dt)
    | some ns, some ls =>
      if dt.previousNodes.length == 0 && dt.previousLinks.length == 0 then
        (.ok (some { type := "full", nodes := ns, links := ls,
                     removedNodes := [], removedLinks := [] }),
         updatePreviousState ns ls)
      else
        let currentNodes := buildNodeMap ns
        let currentLinks := buildLinkMap ls
        let deltaNodes := deltaNodesOf dt.previousNodes currentNodes
        let removedNodes := removedNodesOf dt.previousNodes currentNodes
        let deltaLinks := deltaLinksOf dt.previousLinks currentLinks
        let removedLinks := removedLinksOf dt.previousLinks currentLinks
        let dt2 := updatePreviousState ns ls
        let hasChanges := !deltaNodes.isEmpty || !deltaLinks.isEmpty ||
          !removedNodes.isEmpty || !removedLinks.isEmpty
        if hasChanges then
          (.ok (some { type := "delta", nodes := deltaNodes,
                       links := deltaLinks, removedNodes := removedNodes,
                       removedLinks := removedLinks }), dt2)
        else (.ok none, dt2)

/-- `DeltaTracker.Reset`. -/
def Reset (_dt : DeltaTracker) : DeltaTracker := ⟨[], []⟩

/-- `DeltaTracker.GetStats` (previous-node count, previous-link count). -/
def GetStats (dt : DeltaTracker) : Nat × Nat :=
  (dt.previousNodes.length, dt.previousLinks.length)

/-- The tracker state after it has processed a snapshot with nodes `ns` and
links `ls` (what `updatePreviousState` leaves behind). -/
def trackerOf (ns : List Node) (ls : List Link) : DeltaTracker :=
  ⟨buildNodeMap ns, buildLinkMap ls⟩

/-! ## Client Reconciler (`web/js/websocket.js`) -/

/-- The client's mirrored authoritative graph (`originalData`). -/
structure Mirror where
  nodes : List Node
  links : List Link
deriving DecidableEq

/-- One step of the node-upsert loop of `applyDeltaToOriginalData`:
`nodeMap` is built once from the pre-existing nodes, so whether a delta node
updates in place or is appended depends only on the original id set
(`origIds`). -/
def upsertStep (origIds : List String) (acc : List Node) (nn : Node) :
    List Node :=
  if origIds.contains nn.id then
    acc.map (fun n => if n.id == nn.id then nn else n)
  else acc ++ [nn]

/-- The node add-or-update phase of `applyDeltaToOriginalData`. -/
def upsertNodes (base ds : List Node) : List Node :=
  ds.foldl (upsertStep (base.map Node.id)) base

/-- `applyDeltaToOriginalData` from `web/js/websocket.js`: remove nodes
(cascading to links touching them), remove listed links by key, upsert delta
nodes, then append delta links whose key is not already present. -/
def applyDeltaToOriginalData (orig : Mirror) (d : DeltaUpdate) : Mirror :=
  let nodes1 :=
    if 0 < d.removedNodes.length then
      orig.nodes.filter (fun n => !(d.removedNodes.contains n.id))
    else orig.nodes
  let links1 :=
    if 0 < d.removedNodes.length then
      orig.links.filter (fun l =>
        !(d.removedNodes.contains l.source) &&
        !(d.removedNodes.contains l.target))
    else orig.links
  let removedKeys := d.removedLinks.map (fun r => r.source ++ "-" ++ r.target)
  let links2 :=
    if 0 < d.removedLinks.length then
      links1.filter (fun l => !(removedKeys.contains (linkKey l)))
    else links1
  let nodes2 := if 0 < d.nodes.length then upsertNodes nodes1 d.nodes else nodes1
  let links3 :=
    if 0 < d.links.length then
      let existingKeys := links2.map linkKey
      links2 ++ d.links.filter (fun l => !(existingKeys.contains (linkKey l)))
    else links2
  ⟨nodes2, links3⟩

/-! ## Broadcast Hub fan-out (`pkg/websocket`, `Hub.Run` broadcast case) -/

/-- A consumer connection: its buffered send channel is modelled by the
queued messages plus a capacity, and `closed` records `close(client.send)`. -/
structure ClientConn where
  cid : Nat
  sendQueue : List String
  sendCap : Nat
  closed : Bool
deriving DecidableEq

/-- The `case message := <-h.broadcast` branch of `Hub.Run`: for each client
a non-blocking send (`select`/`default`); a send on a buffered channel with
free capacity enqueues, otherwise the client's queue is closed and the
client is deleted from the set. Returns (remaining clients, evicted
clients). -/
def broadcastFanOut (clients : List ClientConn) (message : String) :
    List ClientConn × List ClientConn :=
  (clients.filterMap (fun c =>
     if c.sendQueue.length < c.sendCap then
       some { c with sendQueue := c.sendQueue ++ [message] }
     else none),
   clients.filterMap (fun c =>
     if c.sendQueue.length < c.sendCap then none
     else some { c with closed := true }))

/-! ## Association-list toolkit (Go map semantics) -/

lemma upsert_of_not_mem {α : Type} (m : List (String × α)) (k : String) (v : α)
    (h : ∀ p ∈ m, p.1 ≠ k) : upsert m k v = m ++ [(k, v)] := by
  unfold upsert
  rw [if_neg]
  intro hc
  simp only [List.any_eq_true, beq_iff_eq] at hc
  obtain ⟨p, hp, he⟩ := hc
  exact h p hp he

lemma foldl_upsert_eq {α : Type} (f : α → String) (l : List α) :
    ∀ acc : List (String × α),
      (acc.map Prod.fst ++ l.map f).Nodup →
      l.foldl (fun m a => upsert m (f a) a) acc =
        acc ++ l.map (fun a => (f a, a)) := by
  induction l with
  | nil => intro acc _; simp
  | cons a t ih =>
    intro acc h
    have hfa : ∀ p ∈ acc, p.1 ≠ f a := by
      intro p hp hep
      have h1 : f a ∈ acc.map Prod.fst := hep ▸ List.mem_map_of_mem _ hp
      have h2 : f a ∈ (a :: t).map f := by simp
      exact (List.nodup_append.mp h).2.2 h1 h2
    rw [List.foldl_cons, upsert_of_not_mem _ _ _ hfa]
    have hih : ((acc ++ [(f a, a)]).map Prod.fst ++ t.map f).Nodup := by
      simp only [List.map_append, List.map_cons, List.map_nil]
      rw [List.append_assoc]
      simpa using h
    rw [ih _ hih]
    simp

lemma buildNodeMap_eq_of_nodup (ns : List Node) (h : (ns.map Node.id).Nodup) :
    buildNodeMap ns = ns.map (fun n => (n.id, n)) := by
  have := foldl_upsert_eq Node.id ns [] (by simpa using h)
  simpa [buildNodeMap] using this

lemma buildLinkMap_eq_of_nodup (ls : List Link) (h : (ls.map linkKey).Nodup) :
    buildLinkMap ls = ls.map (fun l => (linkKey l, l)) := by
  have := foldl_upsert_eq linkKey ls [] (by simpa using h)
  simpa [buildLinkMap] using this

lemma upsert_keys {α : Type} (m : List (String × α)) (k : String) (v : α) :
    (upsert m k v).map Prod.fst =
      if m.any (fun p => p.1 == k) then m.map Prod.fst
      else m.map Prod.fst ++ [k] := by
  unfold upsert
  split
  · rw [List.map_map]
    apply List.map_congr_left
    intro p _
    by_cases hpk : (p.1 == k) = true
    · have : p.1 = k := beq_iff_eq.mp hpk
      simp [hpk, Function.comp, this]
    · simp [hpk, Function.comp]
  · simp

lemma upsert_keys_nodup {α : Type} (m : List (String × α)) (k : String) (v : α)
    (h : (m.map Prod.fst).Nodup) : ((upsert m k v).map Prod.fst).Nodup := by
  rw [upsert_keys]
  split
  · exact h
  · rename_i hc
    have hk : ∀ x ∈ m.map Prod.fst, x ≠ k := by
      intro x hx hxk
      obtain ⟨p, hp, hpe⟩ := List.mem_map.mp hx
      exact hc (List.any_eq_true.mpr ⟨p, hp, beq_iff_eq.mpr (hpe.trans hxk)⟩)
    exact List.nodup_append.mpr
      ⟨h, List.nodup_singleton k, by
        intro x hx hx1
        exact hk x hx (by simpa using hx1)⟩

lemma foldl_upsert_keys_nodup {α : Type} (f : α → String) (l : List α) :
    ∀ acc : List (String × α), (acc.map Prod.fst).Nodup →
      ((l.foldl (fun m a => upsert m (f a) a) acc).map Prod.fst).Nodup := by
  induction l with
  | nil => intro acc h; simpa using h
  | cons a t ih =>
    intro acc h
    rw [List.foldl_cons]
    exact ih _ (upsert_keys_nodup _ _ _ h)

lemma buildNodeMap_keys_nodup (ns : List Node) :
    ((buildNodeMap ns).map Prod.fst).Nodup := by
  have := foldl_upsert_keys_nodup Node.id ns [] (by simp)
  simpa [buildNodeMap] using this

lemma buildLinkMap_keys_nodup (ls : List Link) :
    ((buildLinkMap ls).map Prod.fst).Nodup := by
  have := foldl_upsert_keys_nodup linkKey ls [] (by simp)
  simpa [buildLinkMap] using this

lemma find?_pair_self {α : Type} (m : List (String × α)) (k : String) (v : α)
    (hnd : (m.map Prod.fst).Nodup) (hm : (k, v) ∈ m) :
    m.find? (fun p => p.1 == k) = some (k, v) := by
  induction m with
  | nil => cases hm
  | cons p t ih =>
    simp only [List.map_cons] at hnd
    obtain ⟨hph, hnt⟩ := List.nodup_cons.mp hnd
    rcases List.mem_cons.mp hm with he | ht
    · rw [← he]
      simp [List.find?_cons]
    · have hp1 : ¬ (p.1 == k) = true := by
        intro hpk
        have hkm : k ∈ t.map Prod.fst := List.mem_map.mpr ⟨(k, v), ht, rfl⟩
        exact hph ((beq_iff_eq.mp hpk) ▸ hkm)
      simp only [List.find?_cons, hp1, cond_false, Bool.false_eq_true,
        ite_false]
      exact ih hnt ht

lemma lookupA_pair_self {α : Type} (m : List (String × α)) (k : String) (v : α)
    (hnd : (m.map Prod.fst).Nodup) (hm : (k, v) ∈ m) : lookupA m k = some v := by
  simp [lookupA, find?_pair_self m k v hnd hm]

lemma lookupA_isSome_iff {α : Type} (m : List (String × α)) (k : String) :
    (lookupA m k).isSome = true ↔ k ∈ m.map Prod.fst := by
  simp [lookupA, List.find?_isSome, List.mem_map, beq_iff_eq]

lemma lookupA_eq_none_iff {α : Type} (m : List (String × α)) (k : String) :
    lookupA m k = none ↔ ∀ p ∈ m, p.1 ≠ k := by
  simp [lookupA, List.find?_eq_none, beq_iff_eq]

lemma lookupA_map_pair {α : Type} (f : α → String) (l : List α) (k : String) :
    lookupA (l.map (fun a => (f a, a))) k = l.find? (fun a => f a == k) := by
  induction l with
  | nil => rfl
  | cons a t ih =>
    by_cases h : (f a == k) = true
    · simp [lookupA, List.find?_cons, h]
    · simp only [List.map_cons, lookupA, List.find?_cons, h, cond_false,
        Bool.false_eq_true, ite_false]
      simpa [lookupA] using ih

/-! ## Reflexivity of the code's equality functions -/

lemma goLookupStr_self (m : List (String × String)) (k v : String)
    (hnd : (m.map Prod.fst).Nodup) (hm : (k, v) ∈ m) : goLookupStr m k = v := by
  simp [goLookupStr, find?_pair_self m k v hnd hm]

lemma mapsEqual_refl (a : StrMap) : mapsEqual a a = true := by
  simp only [mapsEqual, Bool.and_eq_true, List.all_eq_true]
  refine ⟨by simp, ?_⟩
  intro p hp
  have := goLookupStr_self a.entries p.1 p.2 a.nodupKeys (by simpa using hp)
  simp [this]

lemma stringSlices_perm {xs ys : List String} (h : List.Perm xs ys) :
    stringSlicesEqualIgnoreOrder xs ys = true := by
  simp only [stringSlicesEqualIgnoreOrder, Bool.and_eq_true, List.all_eq_true]
  exact ⟨by simp [h.length_eq], fun s _ => by simp [h.count_eq]⟩

lemma stringSlices_refl (xs : List String) :
    stringSlicesEqualIgnoreOrder xs xs = true :=
  stringSlices_perm (List.Perm.refl xs)

lemma arraysEqualIgnoreOrder_refl (v : RValue) :
    arraysEqualIgnoreOrder v v = true := by
  cases v <;> simp [arraysEqualIgnoreOrder, stringSlices_refl]

lemma lookupRI_self (m : List (String × RValue)) (k : String) (v : RValue)
    (hnd : (m.map Prod.fst).Nodup) (hm : (k, v) ∈ m) : lookupRI m k = some v := by
  simp [lookupRI, find?_pair_self m k v hnd hm]

lemma resourceInfoEqual_refl (a : RInfo) : resourceInfoEqual a a = true := by
  simp only [resourceInfoEqual, Bool.and_eq_true, List.all_eq_true]
  refine ⟨by simp, ?_⟩
  intro p hp
  rw [lookupRI_self a.entries p.1 p.2 a.nodupKeys (by simpa using hp)]
  split
  · rename_i heq
    simp at heq
  · rename_i vb heq
    cases heq
    split
    · exact arraysEqualIgnoreOrder_refl _
    · simp

lemma nodesEqual_refl (n : Node) : nodesEqual n n = true := by
  simp [nodesEqual, mapsEqual_refl, resourceInfoEqual_refl]

lemma status_eq_of_nodesEqual {a b : Node} (h : nodesEqual a b = true) :
    a.status = b.status := by
  simp only [nodesEqual, Bool.and_eq_true, beq_iff_eq] at h
  tauto

/-! ## C5: error exactly on invalid snapshots -/

/-- C5: `GenerateDelta` returns an error if and only if the snapshot is nil
or its node or link container is nil; an empty but non-nil collection never
causes an error. -/
theorem generateDelta_error_iff_invalid (dt : DeltaTracker) (g? : Option Graph) :
    (∃ e, (GenerateDelta dt g?).1 = .error e) ↔
      (g? = none ∨ ∃ g, g? = some g ∧ (g.nodes = none ∨ g.links = none)) := by
  obtain _ | ⟨ns?, ls?⟩ := g?
  · simp [GenerateDelta]
  · obtain _ | ns := ns? <;> obtain _ | ls := ls?
    · simp [GenerateDelta]
    · simp [GenerateDelta]
    · simp [GenerateDelta]
    · constructor
      · rintro ⟨e, he⟩
        simp only [GenerateDelta] at he
        split at he
        · simp at he
        · split at he <;> simp at he
      · rintro (h | ⟨g, hg, h⟩)
        · simp at h
        · obtain rfl : g = ⟨some ns, some ls⟩ := by injection hg with h; exact h.symm
          simp at h

/-! ## C10: an error leaves the tracker state untouched -/

/-- C10: whenever `GenerateDelta` returns an error, the stored previous
state (and therefore `GetStats`) is completely unchanged. -/
theorem error_leaves_state_unchanged (dt : DeltaTracker) (g? : Option Graph)
    (h : ∃ e, (GenerateDelta dt g?).1 = .error e) :
    (GenerateDelta dt g?).2 = dt ∧
      GetStats (GenerateDelta dt g?).2 = GetStats dt := by
  have hinv := (generateDelta_error_iff_invalid dt g?).mp h
  rcases hinv with rfl | ⟨g, rfl, hg⟩
  · exact ⟨rfl, rfl⟩
  · obtain ⟨ns?, ls?⟩ := g
    rcases hg with hn | hl
    · obtain rfl : ns? = none := hn
      exact ⟨rfl, rfl⟩
    · obtain rfl : ls? = none := hl
      obtain _ | ns := ns?
      · exact ⟨rfl, rfl⟩
      · exact ⟨rfl, rfl⟩

/-- Witness for C10 at the concrete input `none`. -/
theorem error_leaves_state_unchanged_witness :
    (∃ e, (GenerateDelta NewDeltaTracker none).1 = .error e) ∧
      ((GenerateDelta NewDeltaTracker none).2 = NewDeltaTracker ∧
        GetStats (GenerateDelta NewDeltaTracker none).2 =
          GetStats NewDeltaTracker) :=
  ⟨⟨"invalid graph data", rfl⟩,
    error_leaves_state_unchanged NewDeltaTracker none
      ⟨"invalid graph data", rfl⟩⟩

/-! ## C4: the first call emits a full update and stores the snapshot -/

/-- C4: on a fresh tracker, the first call with a non-empty snapshot
returns a `"full"` update carrying exactly the snapshot's nodes and links,
and afterwards the previous state holds exactly those nodes keyed by id and
links keyed by their link key. -/
theorem first_call_full_update (ns : List Node) (ls : List Link)
    (_hne : ns ≠ [] ∨ ls ≠ [])
    (h1 : (ns.map Node.id).Nodup) (h2 : (ls.map linkKey).Nodup) :
    GenerateDelta NewDeltaTracker (some ⟨some ns, some ls⟩) =
      (.ok (some { type := "full", nodes := ns, links := ls,
                   removedNodes := [], removedLinks := [] }),
        trackerOf ns ls) ∧
      (trackerOf ns ls).previousNodes = ns.map (fun n => (n.id, n)) ∧
      (trackerOf ns ls).previousLinks = ls.map (fun l => (linkKey l, l)) :=
  ⟨rfl, buildNodeMap_eq_of_nodup ns h1, buildLinkMap_eq_of_nodup ls h2⟩

/-! ## C2: a repeated snapshot produces no delta -/

instance exceptDecidableEq {ε α : Type} [DecidableEq ε] [DecidableEq α] :
    DecidableEq (Except ε α) := fun a b =>
  match a, b with
  | .ok x, .ok y =>
      if h : x = y then .isTrue (h ▸ rfl)
      else .isFalse (fun hh => h (Except.ok.inj hh))
  | .error x, .error y =>
      if h : x = y then .isTrue (h ▸ rfl)
      else .isFalse (fun hh => h (Except.error.inj hh))
  | .ok _, .error _ => .isFalse (fun hh => Except.noConfusion hh)
  | .error _, .ok _ => .isFalse (fun hh => Except.noConfusion hh)

lemma upsert_ne_nil {α : Type} (m : List (String × α)) (k : String) (v : α) :
    upsert m k v ≠ [] := by
  unfold upsert
  split
  · rename_i hc
    obtain ⟨p, hp, _⟩ := List.any_eq_true.mp hc
    simp [List.map_eq_nil_iff]
    exact List.ne_nil_of_mem hp
  · simp

lemma foldl_upsert_ne_nil {α : Type} (f : α → String) (l : List α) :
    ∀ acc : List (String × α), (acc ≠ [] ∨ l ≠ []) →
      l.foldl (fun m a => upsert m (f a) a) acc ≠ [] := by
  induction l with
  | nil =>
    intro acc h
    rcases h with h | h
    · simpa using h
    · exact absurd rfl h
  | cons a t ih =>
    intro acc _
    rw [List.foldl_cons]
    exact ih _ (Or.inl (upsert_ne_nil acc (f a) a))

lemma buildNodeMap_ne_nil (ns : List Node) (h : ns ≠ []) :
    buildNodeMap ns ≠ [] :=
  foldl_upsert_ne_nil Node.id ns [] (Or.inr h)

lemma buildLinkMap_ne_nil (ls : List Link) (h : ls ≠ []) :
    buildLinkMap ls ≠ [] :=
  foldl_upsert_ne_nil linkKey ls [] (Or.inr h)

lemma generateDelta_state (dt : DeltaTracker) (ns : List Node) (ls : List Link) :
    (GenerateDelta dt (some ⟨some ns, some ls⟩)).2 = trackerOf ns ls := by
  simp only [GenerateDelta]
  split
  · rfl
  · split <;> rfl

lemma removedNodesOf_self (m : List (String × Node)) :
    removedNodesOf m m = [] := by
  rw [removedNodesOf, List.filterMap_eq_nil_iff]
  intro q hq
  have : (lookupA m q.1).isSome = true :=
    (lookupA_isSome_iff m q.1).mpr (List.mem_map_of_mem _ hq)
  simp [this]

lemma deltaLinksOf_self (m : List (String × Link)) :
    deltaLinksOf m m = [] := by
  rw [deltaLinksOf, List.filterMap_eq_nil_iff]
  intro q hq
  have : (lookupA m q.1).isSome = true :=
    (lookupA_isSome_iff m q.1).mpr (List.mem_map_of_mem _ hq)
  simp [this]

lemma removedLinksOf_self (m : List (String × Link)) :
    removedLinksOf m m = [] := by
  rw [removedLinksOf, List.filterMap_eq_nil_iff]
  intro q hq
  have : (lookupA m q.1).isSome = true :=
    (lookupA_isSome_iff m q.1).mpr (List.mem_map_of_mem _ hq)
  simp [this]

lemma deltaNodesOf_self (ns : List Node) :
    deltaNodesOf (buildNodeMap ns) (buildNodeMap ns) = [] := by
  rw [deltaNodesOf, List.filterMap_eq_nil_iff]
  rintro ⟨k, n⟩ hq
  have hl : lookupA (buildNodeMap ns) k = some n :=
    lookupA_pair_self _ k n (buildNodeMap_keys_nodup ns) hq
  simp [hl, nodesEqual_refl]

/-- The empty (but non-nil) snapshot. -/
def emptyGraph : Graph := ⟨some [], some []⟩

/-- C2 counterexample: for the empty graph (non-nil but empty containers)
the second call with the same graph returns another `"full"` update, not
`nil`: after the first call the stored previous state is still empty, so
the first-call branch fires again. -/
theorem second_call_empty_graph_cex :
    (GenerateDelta (GenerateDelta NewDeltaTracker (some emptyGraph)).2
        (some emptyGraph)).1 =
      .ok (some { type := "full", nodes := [], links := [],
                  removedNodes := [], removedLinks := [] }) ∧
    (GenerateDelta (GenerateDelta NewDeltaTracker (some emptyGraph)).2
        (some emptyGraph)).1 ≠ .ok none := by
  exact ⟨rfl, by decide⟩

/-- C2 (amended to non-empty snapshots): for any graph with non-nil
containers and at least one node or link, calling `GenerateDelta` twice in
a row with the same graph yields `nil` (`ok none`) on the second call,
whatever the tracker's prior state was. -/
theorem second_call_same_graph_nil (dt0 : DeltaTracker) (ns : List Node)
    (ls : List Link) (hne : ns ≠ [] ∨ ls ≠ []) :
    (GenerateDelta (GenerateDelta dt0 (some ⟨some ns, some ls⟩)).2
        (some ⟨some ns, some ls⟩)).1 = .ok none := by
  rw [generateDelta_state]
  have hcond : ¬ (((trackerOf ns ls).previousNodes.length == 0 &&
      (trackerOf ns ls).previousLinks.length == 0) = true) := by
    intro hc
    simp only [Bool.and_eq_true, beq_iff_eq, List.length_eq_zero,
      trackerOf] at hc
    rcases hne with h | h
    · exact buildNodeMap_ne_nil ns h hc.1
    · exact buildLinkMap_ne_nil ls h hc.2
  simp only [GenerateDelta]
  rw [if_neg hcond]
  simp only [trackerOf, deltaNodesOf_self, removedNodesOf_self,
    deltaLinksOf_self, removedLinksOf_self]
  simp

/-- A minimal concrete node with the given id, used as input for witnesses
and counterexamples. -/
def simpleNode (i : String) : Node :=
  ⟨i, "", "", "", "", "", "", "", ⟨[], List.nodup_nil⟩, ⟨[], List.nodup_nil⟩,
    ⟨[], List.nodup_nil⟩⟩

/-- Witness for C2's amended theorem on a concrete one-node graph. -/
theorem second_call_same_graph_nil_witness :
    ([simpleNode "a"] ≠ ([] : List Node) ∨ ([] : List Link) ≠ []) ∧
    (GenerateDelta
        (GenerateDelta NewDeltaTracker
          (some ⟨some [simpleNode "a"], some []⟩)).2
        (some ⟨some [simpleNode "a"], some []⟩)).1 = .ok none :=
  ⟨Or.inl (by decide), second_call_same_graph_nil NewDeltaTracker _ _
    (Or.inl (by decide))⟩

/-- Witness for C4 on a concrete one-node graph. -/
theorem first_call_full_update_witness :
    ([simpleNode "a"] ≠ ([] : List Node) ∨ ([] : List Link) ≠ []) ∧
    (GenerateDelta NewDeltaTracker (some ⟨some [simpleNode "a"], some []⟩) =
      (.ok (some { type := "full", nodes := [simpleNode "a"], links := [],
                   removedNodes := [], removedLinks := [] }),
        trackerOf [simpleNode "a"] []) ∧
      (trackerOf [simpleNode "a"] []).previousNodes =
        [simpleNode "a"].map (fun n => (n.id, n)) ∧
      (trackerOf [simpleNode "a"] []).previousLinks =
        ([] : List Link).map (fun l => (linkKey l, l))) :=
  ⟨Or.inl (by decide),
    first_call_full_update _ _ (Or.inl (by decide)) (by decide) (by decide)⟩

/-! ## C9: behavior on empty snapshots -/

/-- C9 counterexample: after a non-empty snapshot has been processed, a
following empty snapshot yields a `"delta"` update carrying removals, not a
`"full"` one. -/
theorem empty_snapshot_after_state_cex :
    (GenerateDelta (GenerateDelta NewDeltaTracker
        (some ⟨some [simpleNode "a"], some []⟩)).2 (some emptyGraph)).1 =
      .ok (some { type := "delta", nodes := [], links := [],
                  removedNodes := ["a"], removedLinks := [] }) ∧
    ("delta" : String) ≠ "full" :=
  ⟨rfl, by decide⟩

lemma filterMap_some_val {α β : Type} (f : α → β) (l : List α) :
    l.filterMap (fun a => some (f a)) = l.map f := by
  induction l with
  | nil => rfl
  | cons a t ih => simp [List.filterMap_cons, ih]

lemma removedNodesOf_nil (prev : List (String × Node)) :
    removedNodesOf prev [] = prev.map Prod.fst := by
  have hcg : ∀ q ∈ prev, (fun q : String × Node =>
      if (lookupA ([] : List (String × Node)) q.1).isSome then none
      else some q.1) q = (fun q : String × Node => some q.1) q :=
    fun q _ => rfl
  rw [removedNodesOf, List.filterMap_congr hcg, filterMap_some_val]

lemma removedLinksOf_nil (prev : List (String × Link)) :
    removedLinksOf prev [] =
      prev.map (fun q => LinkRef.mk q.2.source q.2.target) := by
  have hcg : ∀ q ∈ prev, (fun q : String × Link =>
      if (lookupA ([] : List (String × Link)) q.1).isSome then none
      else some (LinkRef.mk q.2.source q.2.target)) q =
      (fun q : String × Link => some (LinkRef.mk q.2.source q.2.target)) q :=
    fun q _ => rfl
  rw [removedLinksOf, List.filterMap_congr hcg, filterMap_some_val]

/-- C9 (amended): an empty snapshot yields a `"full"` update exactly when
the tracker's previous state is empty — with a non-empty previous state it
yields a `"delta"` carrying every previous node id as removed and every
previous link as a removed link reference; and in every case processing an
empty snapshot succeeds and clears the previous state, so the next call
behaves like a first call and returns `"full"`. -/
theorem empty_snapshot_full_and_reset (dt : DeltaTracker) :
    ((dt.previousNodes = [] ∧ dt.previousLinks = []) →
      (GenerateDelta dt (some emptyGraph)).1 =
        .ok (some { type := "full", nodes := [], links := [],
                    removedNodes := [], removedLinks := [] })) ∧
    (¬ (dt.previousNodes = [] ∧ dt.previousLinks = []) →
      (GenerateDelta dt (some emptyGraph)).1 =
        .ok (some { type := "delta", nodes := [], links := [],
                    removedNodes := dt.previousNodes.map Prod.fst,
                    removedLinks := dt.previousLinks.map
                      (fun q => LinkRef.mk q.2.source q.2.target) })) ∧
    (GenerateDelta dt (some emptyGraph)).2 = ⟨[], []⟩ ∧
    (∃ u, (GenerateDelta dt (some emptyGraph)).1 = .ok u) ∧
    ∀ (ns : List Node) (ls : List Link),
      (GenerateDelta (GenerateDelta dt (some emptyGraph)).2
          (some ⟨some ns, some ls⟩)).1 =
        .ok (some { type := "full", nodes := ns, links := ls,
                    removedNodes := [], removedLinks := [] }) := by
  have hstate : (GenerateDelta dt (some emptyGraph)).2 = ⟨[], []⟩ := by
    rw [show (some emptyGraph : Option Graph) = some ⟨some [], some []⟩ from
      rfl, generateDelta_state]
    rfl
  refine ⟨?_, ?_, hstate, ?_, ?_⟩
  · rintro ⟨h1, h2⟩
    simp only [GenerateDelta, emptyGraph]
    rw [if_pos]
    simp [h1, h2]
  · intro hne
    have hor : dt.previousNodes ≠ [] ∨ dt.previousLinks ≠ [] := by
      by_contra hno
      push_neg at hno
      exact hne ⟨hno.1, hno.2⟩
    simp only [GenerateDelta, emptyGraph]
    rw [if_neg (by
      intro hc
      simp only [Bool.and_eq_true, beq_iff_eq, List.length_eq_zero] at hc
      exact hne hc)]
    have h1 : deltaNodesOf dt.previousNodes (buildNodeMap []) = [] := rfl
    have h2 : deltaLinksOf dt.previousLinks (buildLinkMap []) = [] := rfl
    have h3 : removedNodesOf dt.previousNodes (buildNodeMap []) =
        dt.previousNodes.map Prod.fst := removedNodesOf_nil _
    have h4 : removedLinksOf dt.previousLinks (buildLinkMap []) =
        dt.previousLinks.map (fun q => LinkRef.mk q.2.source q.2.target) :=
      removedLinksOf_nil _
    rw [h1, h2, h3, h4]
    split
    · rfl
    · rename_i hfalse
      exfalso
      apply hfalse
      rcases hor with h | h
      · simp [List.isEmpty_eq_false, List.map_eq_nil_iff, h]
      · simp [List.isEmpty_eq_false, List.map_eq_nil_iff, h]
  · simp only [GenerateDelta, emptyGraph]
    split
    · exact ⟨_, rfl⟩
    · split
      · exact ⟨_, rfl⟩
      · exact ⟨_, rfl⟩
  · intro ns ls
    rw [hstate]
    rfl

/-- Witness for C9's amended theorem: the fresh tracker gets a full
update, and a tracker holding one node gets a delta removing it. -/
theorem empty_snapshot_full_and_reset_witness :
    (NewDeltaTracker.previousNodes = [] ∧
      NewDeltaTracker.previousLinks = []) ∧
    (GenerateDelta NewDeltaTracker (some emptyGraph)).1 =
      .ok (some { type := "full", nodes := [], links := [],
                  removedNodes := [], removedLinks := [] }) ∧
    (GenerateDelta NewDeltaTracker (some emptyGraph)).2 = ⟨[], []⟩ ∧
    (¬ ((trackerOf [simpleNode "a"] []).previousNodes = [] ∧
        (trackerOf [simpleNode "a"] []).previousLinks = [])) ∧
    (GenerateDelta (trackerOf [simpleNode "a"] []) (some emptyGraph)).1 =
      .ok (some { type := "delta", nodes := [], links := [],
                  removedNodes :=
                    (trackerOf [simpleNode "a"] []).previousNodes.map
                      Prod.fst,
                  removedLinks :=
                    (trackerOf [simpleNode "a"] []).previousLinks.map
                      (fun q => LinkRef.mk q.2.source q.2.target) }) :=
  ⟨⟨rfl, rfl⟩,
    (empty_snapshot_full_and_reset NewDeltaTracker).1 ⟨rfl, rfl⟩,
    (empty_snapshot_full_and_reset NewDeltaTracker).2.2.1,
    (by decide),
    (empty_snapshot_full_and_reset (trackerOf [simpleNode "a"] [])).2.1
      (by decide)⟩

/-! ## C6: link identity is the (Source, Target) pair -/

lemma upsert_keys_mono {α : Type} (m : List (String × α)) (k k' : String)
    (v : α) (h : k ∈ m.map Prod.fst) : k ∈ (upsert m k' v).map Prod.fst := by
  rw [upsert_keys]
  split
  · exact h
  · exact List.mem_append_left _ h

lemma foldl_upsert_keys_mono {α : Type} (f : α → String) (l : List α)
    (k : String) :
    ∀ acc : List (String × α), k ∈ acc.map Prod.fst →
      k ∈ (l.foldl (fun m a => upsert m (f a) a) acc).map Prod.fst := by
  induction l with
  | nil => intro acc h; simpa using h
  | cons a t ih =>
    intro acc h
    rw [List.foldl_cons]
    exact ih _ (upsert_keys_mono acc k (f a) a h)

lemma mem_foldl_upsert_keys {α : Type} (f : α → String) (l : List α) (a : α)
    (ha : a ∈ l) :
    ∀ acc : List (String × α),
      f a ∈ (l.foldl (fun m a => upsert m (f a) a) acc).map Prod.fst := by
  induction l with
  | nil => cases ha
  | cons b t ih =>
    intro acc
    rw [List.foldl_cons]
    rcases List.mem_cons.mp ha with rfl | hat
    · refine foldl_upsert_keys_mono f t (f a) _ ?_
      rw [upsert_keys]
      split
      · rename_i hc
        obtain ⟨p, hp, hpk⟩ := List.any_eq_true.mp hc
        exact (beq_iff_eq.mp hpk) ▸ List.mem_map_of_mem _ hp
      · exact List.mem_append_right _ (by simp)
    · exact ih hat _

lemma foldl_upsert_keys_sub {α : Type} (f : α → String) (l : List α)
    (q : String × α) :
    ∀ acc : List (String × α),
      q ∈ l.foldl (fun m a => upsert m (f a) a) acc →
      q.1 ∈ acc.map Prod.fst ∨ q.1 ∈ l.map f := by
  induction l with
  | nil => intro acc h; exact Or.inl (List.mem_map_of_mem _ h)
  | cons a t ih =>
    intro acc h
    rw [List.foldl_cons] at h
    rcases ih _ h with hk | hk
    · rw [upsert_keys] at hk
      revert hk
      split
      · intro hk; exact Or.inl hk
      · intro hk
        rcases List.mem_append.mp hk with hk | hk
        · exact Or.inl hk
        · right; simp only [List.map_cons]
          exact List.mem_cons.mpr (Or.inl (by simpa using hk))
    · right; simp only [List.map_cons]
      exact List.mem_cons.mpr (Or.inr hk)

lemma mem_buildLinkMap_keys (ls : List Link) (l : Link) (h : l ∈ ls) :
    linkKey l ∈ (buildLinkMap ls).map Prod.fst :=
  mem_foldl_upsert_keys linkKey ls l h []

lemma buildLinkMap_keys_sub (ls : List Link) (q : String × Link)
    (h : q ∈ buildLinkMap ls) : q.1 ∈ ls.map linkKey := by
  rcases foldl_upsert_keys_sub linkKey ls q [] h with hk | hk
  · simp at hk
  · exact hk

/-- C6: a link's identity for diffing is exactly the `(Source, Target)`
pair: if two successive snapshots differ only in that one link is replaced
by a link with the same source and target (its `Relationship` or `Value`
may differ), the second call reports no addition and no removal — it
returns `nil`. -/
theorem link_identity_source_target (dt0 : DeltaTracker) (ns : List Node)
    (pre post : List Link) (l l' : Link)
    (hs : l'.source = l.source) (ht : l'.target = l.target) :
    (GenerateDelta
        (GenerateDelta dt0 (some ⟨some ns, some (pre ++ l :: post)⟩)).2
        (some ⟨some ns, some (pre ++ l' :: post)⟩)).1 = .ok none := by
  rw [generateDelta_state]
  have hkey : linkKey l' = linkKey l := by simp [linkKey, hs, ht]
  have hmapeq : (pre ++ l' :: post).map linkKey =
      (pre ++ l :: post).map linkKey := by simp [hkey]
  have hcond : ¬ (((trackerOf ns (pre ++ l :: post)).previousNodes.length == 0 &&
      (trackerOf ns (pre ++ l :: post)).previousLinks.length == 0) = true) := by
    intro hc
    simp only [Bool.and_eq_true, beq_iff_eq, List.length_eq_zero,
      trackerOf] at hc
    exact buildLinkMap_ne_nil _ (by simp) hc.2
  simp only [GenerateDelta]
  rw [if_neg hcond]
  have hdl : deltaLinksOf (trackerOf ns (pre ++ l :: post)).previousLinks
      (buildLinkMap (pre ++ l' :: post)) = [] := by
    rw [deltaLinksOf, List.filterMap_eq_nil_iff]
    intro q hq
    have h1 : q.1 ∈ (pre ++ l :: post).map linkKey :=
      hmapeq ▸ buildLinkMap_keys_sub _ q hq
    obtain ⟨a, ha, hak⟩ := List.mem_map.mp h1
    have h2 : (lookupA (trackerOf ns (pre ++ l :: post)).previousLinks
        q.1).isSome = true :=
      (lookupA_isSome_iff _ _).mpr (hak ▸ mem_buildLinkMap_keys _ a ha)
    simp [h2]
  have hrl : removedLinksOf (trackerOf ns (pre ++ l :: post)).previousLinks
      (buildLinkMap (pre ++ l' :: post)) = [] := by
    rw [removedLinksOf, List.filterMap_eq_nil_iff]
    intro q hq
    have h1 : q.1 ∈ (pre ++ l' :: post).map linkKey :=
      hmapeq.symm ▸ buildLinkMap_keys_sub _ q hq
    obtain ⟨a, ha, hak⟩ := List.mem_map.mp h1
    have h2 : (lookupA (buildLinkMap (pre ++ l' :: post))
        q.1).isSome = true :=
      (lookupA_isSome_iff _ _).mpr (hak ▸ mem_buildLinkMap_keys _ a ha)
    simp [h2]
  simp only [trackerOf] at hdl hrl ⊢
  simp only [deltaNodesOf_self, removedNodesOf_self, hdl, hrl]
  simp

/-- Witness for C6 on a concrete pair of one-link snapshots that differ
only in the link's relationship and value. -/
theorem link_identity_source_target_witness :
    (Link.mk "a" "b" 1 "routes").source = (Link.mk "a" "b" 0 "contains").source ∧
    (Link.mk "a" "b" 1 "routes").target = (Link.mk "a" "b" 0 "contains").target ∧
    (GenerateDelta
        (GenerateDelta NewDeltaTracker
          (some ⟨some [], some ([] ++ Link.mk "a" "b" 0 "contains" :: [])⟩)).2
        (some ⟨some [], some ([] ++ Link.mk "a" "b" 1 "routes" :: [])⟩)).1 =
      .ok none :=
  ⟨rfl, rfl,
    link_identity_source_target NewDeltaTracker [] [] []
      (Link.mk "a" "b" 0 "contains") (Link.mk "a" "b" 1 "routes") rfl rfl⟩

/-! ## C3: order-insensitive fields vs. ordinary fields -/

lemma mem_upsert {α : Type} (m : List (String × α)) (k : String) (v : α)
    (q : String × α) (h : q ∈ upsert m k v) : q ∈ m ∨ q = (k, v) := by
  unfold upsert at h
  split at h
  · obtain ⟨p, hp, hpe⟩ := List.mem_map.mp h
    by_cases hpk : (p.1 == k) = true
    · right; rw [← hpe, if_pos hpk]
    · left; rw [← hpe, if_neg hpk]; exact hp
  · rcases List.mem_append.mp h with h | h
    · exact Or.inl h
    · exact Or.inr (by simpa using h)

lemma mem_foldl_upsert {α : Type} (f : α → String) (l : List α)
    (q : String × α) :
    ∀ acc, q ∈ l.foldl (fun m a => upsert m (f a) a) acc →
      q ∈ acc ∨ ∃ a ∈ l, q = (f a, a) := by
  induction l with
  | nil => intro acc h; exact Or.inl h
  | cons b t ih =>
    intro acc h
    rw [List.foldl_cons] at h
    rcases ih _ h with h' | ⟨a, ha, rfl⟩
    · rcases mem_upsert acc (f b) b q h' with h'' | rfl
      · exact Or.inl h''
      · exact Or.inr ⟨b, by simp, rfl⟩
    · exact Or.inr ⟨a, List.mem_cons.mpr (Or.inr ha), rfl⟩

lemma mem_buildNodeMap (ns : List Node) (q : String × Node)
    (h : q ∈ buildNodeMap ns) : ∃ c ∈ ns, q = (c.id, c) := by
  rcases mem_foldl_upsert Node.id ns q [] h with h' | h'
  · cases h'
  · exact h'

lemma mem_buildNodeMap_keys (ns : List Node) (n : Node) (h : n ∈ ns) :
    n.id ∈ (buildNodeMap ns).map Prod.fst :=
  mem_foldl_upsert_keys Node.id ns n h []

lemma buildNodeMap_keys_sub (ns : List Node) (q : String × Node)
    (h : q ∈ buildNodeMap ns) : q.1 ∈ ns.map Node.id := by
  rcases foldl_upsert_keys_sub Node.id ns q [] h with hk | hk
  · simp at hk
  · exact hk

lemma find?_f_eq_some {α : Type} (f : α → String) (l : List α)
    (h : (l.map f).Nodup) (a : α) (ha : a ∈ l) (k : String) (hk : f a = k) :
    l.find? (fun x => f x == k) = some a := by
  induction l with
  | nil => cases ha
  | cons b t ih =>
    simp only [List.map_cons] at h
    obtain ⟨hbh, hbt⟩ := List.nodup_cons.mp h
    rcases List.mem_cons.mp ha with rfl | hat
    · simp [List.find?_cons, hk]
    · have hb1 : ¬ (f b == k) = true := by
        intro hbk
        have : f a ∈ t.map f := List.mem_map_of_mem f hat
        exact hbh (((beq_iff_eq.mp hbk).trans hk.symm) ▸ this)
      simp only [List.find?_cons, hb1, cond_false, Bool.false_eq_true,
        ite_false]
      exact ih hbt hat

lemma deltaNodesOf_eq_nil (ns1 ns2 : List Node)
    (h1 : (ns1.map Node.id).Nodup)
    (hrel : ∀ c ∈ ns2, ∃ p ∈ ns1, p.id = c.id ∧ nodesEqual p c = true) :
    deltaNodesOf (buildNodeMap ns1) (buildNodeMap ns2) = [] := by
  rw [deltaNodesOf, List.filterMap_eq_nil_iff]
  intro q hq
  obtain ⟨c, hc, rfl⟩ := mem_buildNodeMap ns2 q hq
  obtain ⟨p, hp, hid, heqn⟩ := hrel c hc
  have hl : lookupA (buildNodeMap ns1) c.id = some p := by
    rw [buildNodeMap_eq_of_nodup ns1 h1, lookupA_map_pair,
      find?_f_eq_some Node.id ns1 h1 p hp c.id hid]
  simp [hl, heqn]

lemma removedNodesOf_eq_nil (ns1 ns2 : List Node)
    (h : ∀ x ∈ ns1.map Node.id, x ∈ ns2.map Node.id) :
    removedNodesOf (buildNodeMap ns1) (buildNodeMap ns2) = [] := by
  rw [removedNodesOf, List.filterMap_eq_nil_iff]
  intro q hq
  have h1 : q.1 ∈ ns1.map Node.id := buildNodeMap_keys_sub ns1 q hq
  obtain ⟨a, ha, hak⟩ := List.mem_map.mp (h _ h1)
  have h2 : (lookupA (buildNodeMap ns2) q.1).isSome = true :=
    (lookupA_isSome_iff _ _).mpr (hak ▸ mem_buildNodeMap_keys ns2 a ha)
  simp [h2]

lemma resourceInfoEqual_of_entries (a b : RInfo)
    (pre post : List (String × RValue)) (k : String) (v v' : RValue)
    (ha : a.entries = pre ++ (k, v) :: post)
    (hb : b.entries = pre ++ (k, v') :: post)
    (hk : orderIgnoredArrayFields.contains k = true)
    (hv : arraysEqualIgnoreOrder v v' = true) :
    resourceInfoEqual a b = true := by
  have hnd : ((pre ++ (k, v) :: post).map Prod.fst).Nodup := ha ▸ a.nodupKeys
  rw [List.map_append, List.map_cons] at hnd
  have hpre : (pre.map Prod.fst).Nodup := (List.nodup_append.mp hnd).1
  have hrest : ((k, v).1 :: post.map Prod.fst).Nodup :=
    (List.nodup_append.mp hnd).2.1
  have hdisj := (List.nodup_append.mp hnd).2.2
  have hkpost : k ∉ post.map Prod.fst := (List.nodup_cons.mp hrest).1
  have hpost : (post.map Prod.fst).Nodup := (List.nodup_cons.mp hrest).2
  have hprek : ∀ q ∈ pre, q.1 ≠ k := by
    intro q hq hqk
    exact hdisj (List.mem_map_of_mem _ hq) (by simp [hqk])
  simp only [resourceInfoEqual, ha, hb, Bool.and_eq_true, List.all_eq_true]
  refine ⟨by simp, ?_⟩
  intro p hp
  rcases List.mem_append.mp hp with hppre | hprest
  · have hl : lookupRI (pre ++ (k, v') :: post) p.1 = some p.2 := by
      rw [lookupRI, List.find?_append,
        find?_pair_self pre p.1 p.2 hpre (by simpa using hppre)]
      rfl
    rw [hl]
    split
    · rename_i heq; simp at heq
    · rename_i vb heq
      cases heq
      split
      · exact arraysEqualIgnoreOrder_refl _
      · simp
  · rcases List.mem_cons.mp hprest with rfl | hppost
    · have hfpre : pre.find? (fun q => q.1 == (k, v).1) = none := by
        rw [List.find?_eq_none]
        intro q hq
        simpa using hprek q hq
      have hl : lookupRI (pre ++ (k, v') :: post) (k, v).1 = some v' := by
        rw [lookupRI, List.find?_append, hfpre]
        simp [List.find?_cons]
      rw [hl]
      split
      · rename_i heq; simp at heq
      · rename_i vb heq
        cases heq
        simp only [hk, if_true]
        exact hv
    · have hp1post : p.1 ∈ post.map Prod.fst := List.mem_map_of_mem _ hppost
      have hfpre : pre.find? (fun q => q.1 == p.1) = none := by
        rw [List.find?_eq_none]
        intro q hq hqe
        exact hdisj (List.mem_map_of_mem _ hq)
          (by simp [beq_iff_eq.mp hqe, hp1post])
      have hkp1 : ¬ ((k, v').1 == p.1) = true := by
        intro hke
        have hkp : k = p.1 := by simpa using beq_iff_eq.mp hke
        exact hkpost (hkp ▸ hp1post)
      have hl : lookupRI (pre ++ (k, v') :: post) p.1 = some p.2 := by
        rw [lookupRI, List.find?_append, hfpre]
        simp only [Option.none_or, List.find?_cons, hkp1, cond_false,
          Bool.false_eq_true, ite_false]
        rw [find?_pair_self post p.1 p.2 hpost (by simpa using hppost)]
        rfl
      rw [hl]
      split
      · rename_i heq; simp at heq
      · rename_i vb heq
        cases heq
        split
        · exact arraysEqualIgnoreOrder_refl _
        · simp

lemma nodesEqual_update_resourceInfo (n : Node) (r' : RInfo)
    (h : resourceInfoEqual n.resourceInfo r' = true) :
    nodesEqual n { n with resourceInfo := r' } = true := by
  simp [nodesEqual, mapsEqual_refl, h]

lemma trackerOf_nodes_cond_false (ns : List Node) (ls : List Link)
    (h : ns ≠ []) :
    ¬ (((trackerOf ns ls).previousNodes.length == 0 &&
        (trackerOf ns ls).previousLinks.length == 0) = true) := by
  intro hc
  simp only [Bool.and_eq_true, beq_iff_eq, List.length_eq_zero,
    trackerOf] at hc
  exact buildNodeMap_ne_nil ns h hc.1

/-- C3: between two successive snapshots, permuting a node's `key_names`
array (an order-insensitive allow-listed `ResourceInfo` field) produces no
delta, while changing the node's `Status` field produces a non-nil
`"delta"` whose `Nodes` contains the updated node. -/
theorem order_insensitive_vs_status_delta :
    (∀ (dt0 : DeltaTracker) (pre post : List Node) (ls : List Link)
        (n : Node) (r' : RInfo) (preR postR : List (String × RValue))
        (xs ys : List String),
        n.resourceInfo.entries =
            preR ++ ("key_names", RValue.strList xs) :: postR →
        r'.entries = preR ++ ("key_names", RValue.strList ys) :: postR →
        List.Perm xs ys →
        ((pre ++ n :: post).map Node.id).Nodup →
        (GenerateDelta
            (GenerateDelta dt0 (some ⟨some (pre ++ n :: post), some ls⟩)).2
            (some ⟨some (pre ++ { n with resourceInfo := r' } :: post),
              some ls⟩)).1 = .ok none) ∧
    (∀ (dt0 : DeltaTracker) (pre post : List Node) (ls : List Link)
        (n : Node) (s' : String), s' ≠ n.status →
        ((pre ++ n :: post).map Node.id).Nodup →
        ∃ d, (GenerateDelta
            (GenerateDelta dt0 (some ⟨some (pre ++ n :: post), some ls⟩)).2
            (some ⟨some (pre ++ { n with status := s' } :: post),
              some ls⟩)).1 = .ok (some d) ∧
          d.type = "delta" ∧ { n with status := s' } ∈ d.nodes) := by
  constructor
  · intro dt0 pre post ls n r' preR postR xs ys hnr hr' hperm hnd
    rw [generateDelta_state]
    have hcond := trackerOf_nodes_cond_false (pre ++ n :: post) ls (by simp)
    simp only [GenerateDelta]
    rw [if_neg hcond]
    have hne : nodesEqual n { n with resourceInfo := r' } = true := by
      refine nodesEqual_update_resourceInfo n r' ?_
      refine resourceInfoEqual_of_entries n.resourceInfo r' preR postR
        "key_names" (RValue.strList xs) (RValue.strList ys) hnr hr'
        (by decide) ?_
      simpa [arraysEqualIgnoreOrder] using stringSlices_perm hperm
    have hdn : deltaNodesOf (trackerOf (pre ++ n :: post) ls).previousNodes
        (buildNodeMap (pre ++ { n with resourceInfo := r' } :: post)) = [] := by
      simp only [trackerOf]
      apply deltaNodesOf_eq_nil _ _ hnd
      intro c hc
      rcases List.mem_append.mp hc with hcpre | hcrest
      · exact ⟨c, List.mem_append_left _ hcpre, rfl, nodesEqual_refl c⟩
      · rcases List.mem_cons.mp hcrest with rfl | hcpost
        · exact ⟨n, List.mem_append_right _ (by simp), rfl, hne⟩
        · exact ⟨c, List.mem_append_right _ (List.mem_cons.mpr (Or.inr hcpost)),
            rfl, nodesEqual_refl c⟩
    have hrn : removedNodesOf (trackerOf (pre ++ n :: post) ls).previousNodes
        (buildNodeMap (pre ++ { n with resourceInfo := r' } :: post)) = [] := by
      simp only [trackerOf]
      apply removedNodesOf_eq_nil
      have hids : (pre ++ { n with resourceInfo := r' } :: post).map Node.id
          = (pre ++ n :: post).map Node.id := by simp
      intro x hx
      rw [hids]
      exact hx
    simp only [trackerOf] at hdn hrn ⊢
    simp only [hdn, hrn, deltaLinksOf_self, removedLinksOf_self]
    simp
  · intro dt0 pre post ls n s' hs hnd
    rw [generateDelta_state]
    have hcond := trackerOf_nodes_cond_false (pre ++ n :: post) ls (by simp)
    simp only [GenerateDelta]
    rw [if_neg hcond]
    have hnd2 : ((pre ++ { n with status := s' } :: post).map Node.id).Nodup := by
      have hids : (pre ++ { n with status := s' } :: post).map Node.id
          = (pre ++ n :: post).map Node.id := by simp
      rw [hids]
      exact hnd
    have hfind : (pre ++ n :: post).find?
        (fun x => x.id == ({ n with status := s' } : Node).id) = some n :=
      find?_f_eq_some Node.id _ hnd n (by simp) _ rfl
    have hneq : nodesEqual n { n with status := s' } = false := by
      cases hb : nodesEqual n { n with status := s' }
      · rfl
      · have hst := status_eq_of_nodesEqual hb
        simp at hst
        exact absurd hst.symm hs
    have hmem : { n with status := s' } ∈
        deltaNodesOf (trackerOf (pre ++ n :: post) ls).previousNodes
          (buildNodeMap (pre ++ { n with status := s' } :: post)) := by
      rw [deltaNodesOf]
      apply List.mem_filterMap.mpr
      refine ⟨(({ n with status := s' } : Node).id,
        { n with status := s' }), ?_, ?_⟩
      · rw [buildNodeMap_eq_of_nodup _ hnd2]
        exact List.mem_map_of_mem _ (List.mem_append_right _ (by simp))
      · have hl : lookupA (trackerOf (pre ++ n :: post) ls).previousNodes
            ({ n with status := s' } : Node).id = some n := by
          simp only [trackerOf]
          rw [buildNodeMap_eq_of_nodup _ hnd, lookupA_map_pair, hfind]
        simp [hl, hneq]
    have hie : (deltaNodesOf (trackerOf (pre ++ n :: post) ls).previousNodes
        (buildNodeMap (pre ++ { n with status := s' } :: post))).isEmpty
          = false :=
      List.isEmpty_eq_false.mpr (List.ne_nil_of_mem hmem)
    rw [if_pos (by simp [hie])]
    exact ⟨_, rfl, rfl, hmem⟩

/-- A concrete node whose `ResourceInfo` holds only a `key_names` array. -/
def nodeKeyNames (i : String) (xs : List String) : Node :=
  ⟨i, "", "", "", "", "", "", "", ⟨[], List.nodup_nil⟩, ⟨[], List.nodup_nil⟩,
    ⟨[("key_names", RValue.strList xs)], by simp⟩⟩

/-- Witness for C3: a concrete permuted `key_names` pair yields `nil`, and a
concrete status change yields a delta containing the node. -/
theorem order_insensitive_vs_status_delta_witness :
    ((GenerateDelta
        (GenerateDelta NewDeltaTracker
          (some ⟨some ([] ++ nodeKeyNames "k" ["a", "b"] :: []), some []⟩)).2
        (some ⟨some ([] ++ { nodeKeyNames "k" ["a", "b"] with
            resourceInfo := (nodeKeyNames "k" ["b", "a"]).resourceInfo } :: []),
          some []⟩)).1 = .ok none) ∧
    (∃ d, (GenerateDelta
        (GenerateDelta NewDeltaTracker
          (some ⟨some ([] ++ simpleNode "a" :: []), some []⟩)).2
        (some ⟨some ([] ++ { simpleNode "a" with status := "x" } :: []),
          some []⟩)).1 = .ok (some d) ∧
      d.type = "delta" ∧ { simpleNode "a" with status := "x" } ∈ d.nodes) :=
  ⟨order_insensitive_vs_status_delta.1 NewDeltaTracker [] [] []
      (nodeKeyNames "k" ["a", "b"]) (nodeKeyNames "k" ["b", "a"]).resourceInfo
      [] [] ["a", "b"] ["b", "a"] rfl rfl (by decide) (by decide),
    order_insensitive_vs_status_delta.2 NewDeltaTracker [] [] []
      (simpleNode "a") "x" (by decide) (by decide)⟩

/-! ## C7: fan-out and backpressure -/

/-- C7: during fan-out of one message over any consumer set (with distinct
identities), every consumer whose outbound queue has free capacity stays
registered and receives the message; every consumer whose queue is full is
evicted with its queue closed, unchanged, without receiving the message;
and every remaining consumer is one of the roomy ones with the message
delivered — so no full queue prevents delivery to any other consumer. -/
theorem fanout_backpressure (clients : List ClientConn) (message : String)
    (hids : (clients.map ClientConn.cid).Nodup) :
    (∀ c ∈ clients, c.sendQueue.length < c.sendCap →
      { c with sendQueue := c.sendQueue ++ [message] } ∈
        (broadcastFanOut clients message).1) ∧
    (∀ c ∈ clients, ¬ c.sendQueue.length < c.sendCap →
      { c with closed := true } ∈ (broadcastFanOut clients message).2 ∧
        ∀ c' ∈ (broadcastFanOut clients message).1, c'.cid ≠ c.cid) ∧
    (∀ c' ∈ (broadcastFanOut clients message).1,
      ∃ c ∈ clients, c.sendQueue.length < c.sendCap ∧
        c' = { c with sendQueue := c.sendQueue ++ [message] }) := by
  refine ⟨?_, ?_, ?_⟩
  · intro c hc h
    exact List.mem_filterMap.mpr ⟨c, hc, by rw [if_pos h]⟩
  · intro c hc h
    constructor
    · exact List.mem_filterMap.mpr ⟨c, hc, by rw [if_neg h]⟩
    · intro c' hc' hcid
      obtain ⟨b, hb, hbe⟩ := List.mem_filterMap.mp hc'
      by_cases hbq : b.sendQueue.length < b.sendCap
      · rw [if_pos hbq] at hbe
        have hbc : b.cid = c.cid := by
          rw [← hcid, ← Option.some.inj hbe]
        have : b = c := List.inj_on_of_nodup_map hids hb hc hbc
        rw [this] at hbq
        exact h hbq
      · rw [if_neg hbq] at hbe
        cases hbe
  · intro c' hc'
    obtain ⟨b, hb, hbe⟩ := List.mem_filterMap.mp hc'
    by_cases hbq : b.sendQueue.length < b.sendCap
    · rw [if_pos hbq] at hbe
      exact ⟨b, hb, hbq, (Option.some.inj hbe).symm⟩
    · rw [if_neg hbq] at hbe
      cases hbe

/-- Witness for C7: two consumers, A with room and B with a full queue; A
receives the delta, B is evicted with its queue closed. -/
theorem fanout_backpressure_witness :
    (([⟨0, [], 1, false⟩, ⟨1, ["old"], 1, false⟩] : List ClientConn).map
        ClientConn.cid).Nodup ∧
    { (⟨0, [], 1, false⟩ : ClientConn) with sendQueue := [] ++ ["delta"] } ∈
      (broadcastFanOut [⟨0, [], 1, false⟩, ⟨1, ["old"], 1, false⟩]
        "delta").1 ∧
    { (⟨1, ["old"], 1, false⟩ : ClientConn) with closed := true } ∈
      (broadcastFanOut [⟨0, [], 1, false⟩, ⟨1, ["old"], 1, false⟩]
        "delta").2 :=
  ⟨by decide,
    (fanout_backpressure _ "delta" (by decide)).1 _ (by decide) (by decide),
    ((fanout_backpressure _ "delta" (by decide)).2.1 _ (by decide)
      (by decide)).1⟩

/-! ## C1: round-trip of a delta through the client reconciler -/

lemma filterMap_guard_map {α β : Type} (g : α → Bool) (h : α → β)
    (l : List α) :
    l.filterMap (fun a => if g a then some (h a) else none) =
      (l.filter g).map h := by
  induction l with
  | nil => rfl
  | cons a t ih =>
    by_cases hg : g a = true
    · simp [List.filterMap_cons, hg, ih, List.filter_cons]
    · simp [List.filterMap_cons, hg, ih, List.filter_cons]

lemma trackerOf_cond_false (ns : List Node) (ls : List Link)
    (hne : ns ≠ [] ∨ ls ≠ []) :
    ¬ (((trackerOf ns ls).previousNodes.length == 0 &&
        (trackerOf ns ls).previousLinks.length == 0) = true) := by
  intro hc
  simp only [Bool.and_eq_true, beq_iff_eq, List.length_eq_zero,
    trackerOf] at hc
  rcases hne with h | h
  · exact buildNodeMap_ne_nil ns h hc.1
  · exact buildLinkMap_ne_nil ls h hc.2

/-- What the non-first-call branch of `GenerateDelta` emits. -/
lemma generateDelta_delta_char (ns1 ns2 : List Node) (ls1 ls2 : List Link)
    (hne : ns1 ≠ [] ∨ ls1 ≠ []) (d : DeltaUpdate)
    (hd : (GenerateDelta (trackerOf ns1 ls1)
        (some ⟨some ns2, some ls2⟩)).1 = .ok (some d)) :
    d = { type := "delta",
          nodes := deltaNodesOf (buildNodeMap ns1) (buildNodeMap ns2),
          links := deltaLinksOf (buildLinkMap ls1) (buildLinkMap ls2),
          removedNodes :=
            removedNodesOf (buildNodeMap ns1) (buildNodeMap ns2),
          removedLinks :=
            removedLinksOf (buildLinkMap ls1) (buildLinkMap ls2) } := by
  simp only [GenerateDelta] at hd
  rw [if_neg (trackerOf_cond_false ns1 ls1 hne)] at hd
  simp only [trackerOf] at hd
  split at hd
  · exact (Option.some.inj (Except.ok.inj hd)).symm
  · exact Option.noConfusion (Except.ok.inj hd)

lemma deltaNodesOf_char (ns1 ns2 : List Node)
    (hn1 : (ns1.map Node.id).Nodup) (hn2 : (ns2.map Node.id).Nodup) :
    deltaNodesOf (buildNodeMap ns1) (buildNodeMap ns2) =
      ns2.filter (fun c =>
        match ns1.find? (fun p => p.id == c.id) with
        | none => true
        | some p => !nodesEqual p c) := by
  rw [deltaNodesOf, buildNodeMap_eq_of_nodup ns1 hn1,
    buildNodeMap_eq_of_nodup ns2 hn2, List.filterMap_map]
  have hpt : ∀ c ∈ ns2,
      ((fun q : String × Node =>
        match lookupA (ns1.map fun n => (n.id, n)) q.1 with
        | none => some q.2
        | some previousNode =>
            if nodesEqual previousNode q.2 then none else some q.2) ∘
        (fun n => (n.id, n))) c =
      (if (match ns1.find? (fun p => p.id == c.id) with
          | none => true
          | some p => !nodesEqual p c) then some c else none) := by
    intro c _
    simp only [Function.comp, lookupA_map_pair]
    cases hf : ns1.find? (fun p => p.id == c.id) with
    | none => simp
    | some p => by_cases hne : nodesEqual p c = true <;> simp [hne]
  rw [List.filterMap_congr hpt,
    filterMap_guard_map _ (fun c => c) ns2, List.map_id']

lemma removedNodesOf_char (ns1 ns2 : List Node)
    (hn1 : (ns1.map Node.id).Nodup) (hn2 : (ns2.map Node.id).Nodup) :
    removedNodesOf (buildNodeMap ns1) (buildNodeMap ns2) =
      (ns1.filter (fun p =>
        !(ns2.find? (fun c => c.id == p.id)).isSome)).map Node.id := by
  rw [removedNodesOf, buildNodeMap_eq_of_nodup ns1 hn1,
    buildNodeMap_eq_of_nodup ns2 hn2, List.filterMap_map]
  have hpt : ∀ p ∈ ns1,
      ((fun q : String × Node =>
        if (lookupA (ns2.map fun n => (n.id, n)) q.1).isSome then none
        else some q.1) ∘ (fun n => (n.id, n))) p =
      (if !(ns2.find? (fun c => c.id == p.id)).isSome then some p.id
        else none) := by
    intro p _
    simp only [Function.comp, lookupA_map_pair]
    cases hf : ns2.find? (fun c => c.id == p.id) <;> simp [hf]
  rw [List.filterMap_congr hpt, filterMap_guard_map]

lemma deltaLinksOf_char (ls1 ls2 : List Link)
    (hl1 : (ls1.map linkKey).Nodup) (hl2 : (ls2.map linkKey).Nodup) :
    deltaLinksOf (buildLinkMap ls1) (buildLinkMap ls2) =
      ls2.filter (fun c =>
        !(ls1.find? (fun p => linkKey p == linkKey c)).isSome) := by
  rw [deltaLinksOf, buildLinkMap_eq_of_nodup ls1 hl1,
    buildLinkMap_eq_of_nodup ls2 hl2, List.filterMap_map]
  have hpt : ∀ c ∈ ls2,
      ((fun q : String × Link =>
        if (lookupA (ls1.map fun l => (linkKey l, l)) q.1).isSome then none
        else some q.2) ∘ (fun l => (linkKey l, l))) c =
      (if !(ls1.find? (fun p => linkKey p == linkKey c)).isSome then some c
        else none) := by
    intro c _
    simp only [Function.comp, lookupA_map_pair]
    cases hf : ls1.find? (fun p => linkKey p == linkKey c) <;> simp [hf]
  rw [List.filterMap_congr hpt, filterMap_guard_map _ (fun c => c) ls2,
    List.map_id']

lemma removedLinksOf_char (ls1 ls2 : List Link)
    (hl1 : (ls1.map linkKey).Nodup) (hl2 : (ls2.map linkKey).Nodup) :
    removedLinksOf (buildLinkMap ls1) (buildLinkMap ls2) =
      (ls1.filter (fun p =>
        !(ls2.find? (fun c => linkKey c == linkKey p)).isSome)).map
        (fun p => LinkRef.mk p.source p.target) := by
  rw [removedLinksOf, buildLinkMap_eq_of_nodup ls1 hl1,
    buildLinkMap_eq_of_nodup ls2 hl2, List.filterMap_map]
  have hpt : ∀ p ∈ ls1,
      ((fun q : String × Link =>
        if (lookupA (ls2.map fun l => (linkKey l, l)) q.1).isSome then none
        else some (LinkRef.mk q.2.source q.2.target)) ∘
        (fun l => (linkKey l, l))) p =
      (if !(ls2.find? (fun c => linkKey c == linkKey p)).isSome then
        some (LinkRef.mk p.source p.target) else none) := by
    intro p _
    simp only [Function.comp, lookupA_map_pair]
    cases hf : ls2.find? (fun c => linkKey c == linkKey p) <;> simp [hf]
  rw [List.filterMap_congr hpt, filterMap_guard_map]

/-- The link set of the mirror after the two removal phases of
`applyDeltaToOriginalData`. -/
def mirrorLinks2 (orig : Mirror) (d : DeltaUpdate) : List Link :=
  (orig.links.filter (fun l =>
    !(d.removedNodes.contains l.source) &&
    !(d.removedNodes.contains l.target))).filter (fun l =>
    !((d.removedLinks.map (fun r => r.source ++ "-" ++ r.target)).contains
      (linkKey l)))

lemma applyDelta_nodes (orig : Mirror) (d : DeltaUpdate) :
    (applyDeltaToOriginalData orig d).nodes =
      upsertNodes
        (orig.nodes.filter (fun n => !(d.removedNodes.contains n.id)))
        d.nodes := by
  obtain ⟨ty, dns, dls, drn, drl⟩ := d
  simp only [applyDeltaToOriginalData]
  have e1 : (if 0 < drn.length then
      orig.nodes.filter (fun n => !(drn.contains n.id))
    else orig.nodes) =
      orig.nodes.filter (fun n => !(drn.contains n.id)) := by
    split
    · rfl
    · rename_i h
      obtain rfl : drn = [] :=
        List.length_eq_zero.mp (Nat.eq_zero_of_not_pos h)
      exact (List.filter_eq_self.mpr (fun a _ => by simp)).symm
  rw [e1]
  split
  · rfl
  · rename_i h
    obtain rfl : dns = [] :=
      List.length_eq_zero.mp (Nat.eq_zero_of_not_pos h)
    rfl

lemma applyDelta_links (orig : Mirror) (d : DeltaUpdate) :
    (applyDeltaToOriginalData orig d).links =
      mirrorLinks2 orig d ++ d.links.filter (fun l =>
        !(((mirrorLinks2 orig d).map linkKey).contains (linkKey l))) := by
  obtain ⟨ty, dns, dls, drn, drl⟩ := d
  simp only [applyDeltaToOriginalData, mirrorLinks2]
  have e1 : (if 0 < drn.length then
      orig.links.filter (fun l => !(drn.contains l.source) &&
        !(drn.contains l.target))
    else orig.links) =
      orig.links.filter (fun l => !(drn.contains l.source) &&
        !(drn.contains l.target)) := by
    split
    · rfl
    · rename_i h
      obtain rfl : drn = [] :=
        List.length_eq_zero.mp (Nat.eq_zero_of_not_pos h)
      exact (List.filter_eq_self.mpr (fun a _ => by simp)).symm
  rw [e1]
  have e2 : (if 0 < drl.length then
      (orig.links.filter (fun l => !(drn.contains l.source) &&
        !(drn.contains l.target))).filter (fun l =>
        !((drl.map (fun r => r.source ++ "-" ++ r.target)).contains
          (linkKey l)))
    else orig.links.filter (fun l => !(drn.contains l.source) &&
        !(drn.contains l.target))) =
      (orig.links.filter (fun l => !(drn.contains l.source) &&
        !(drn.contains l.target))).filter (fun l =>
        !((drl.map (fun r => r.source ++ "-" ++ r.target)).contains
          (linkKey l))) := by
    split
    · rfl
    · rename_i h
      obtain rfl : drl = [] :=
        List.length_eq_zero.mp (Nat.eq_zero_of_not_pos h)
      exact (List.filter_eq_self.mpr (fun a _ => by simp)).symm
  rw [e2]
  split
  · rfl
  · rename_i h
    obtain rfl : dls = [] :=
      List.length_eq_zero.mp (Nat.eq_zero_of_not_pos h)
    simp

lemma foldl_upsertStep (origIds : List String) (ds : List Node)
    (hd : (ds.map Node.id).Nodup) :
    ∀ acc : List Node,
      ds.foldl (upsertStep origIds) acc =
        acc.map (fun n => if origIds.contains n.id then
            match ds.find? (fun x => x.id == n.id) with
            | some x => x
            | none => n
          else n)
        ++ ds.filter (fun x => !(origIds.contains x.id)) := by
  induction ds with
  | nil =>
    intro acc
    simp only [List.foldl_nil, List.find?_nil, List.filter_nil,
      List.append_nil]
    have h : (fun n : Node => if origIds.contains n.id then
        match (none : Option Node) with
        | some x => x
        | none => n
      else n) = fun n => n := by
      funext n
      split <;> rfl
    rw [h, List.map_id']
  | cons b t ih =>
    simp only [List.map_cons] at hd
    obtain ⟨hbh, hbt⟩ := List.nodup_cons.mp hd
    intro acc
    rw [List.foldl_cons]
    by_cases hb : origIds.contains b.id = true
    · rw [show upsertStep origIds acc b =
        acc.map (fun n => if n.id == b.id then b else n) from by
          rw [upsertStep, if_pos hb]]
      rw [ih hbt _]
      have hfb : t.find? (fun x => x.id == b.id) = none := by
        rw [List.find?_eq_none]
        intro x hx hxe
        exact hbh ((beq_iff_eq.mp hxe) ▸ List.mem_map_of_mem Node.id hx)
      have hmapeq : (acc.map (fun n => if n.id == b.id then b else n)).map
          (fun n => if origIds.contains n.id then
            match t.find? (fun x => x.id == n.id) with
            | some x => x
            | none => n
          else n) =
          acc.map (fun n => if origIds.contains n.id then
            match (b :: t).find? (fun x => x.id == n.id) with
            | some x => x
            | none => n
          else n) := by
        rw [List.map_map]
        apply List.map_congr_left
        intro n _
        by_cases hn : (n.id == b.id) = true
        · have hnid : n.id = b.id := beq_iff_eq.mp hn
          have hbn : (b.id == n.id) = true := beq_iff_eq.mpr hnid.symm
          have hcons : (b :: t).find? (fun x => x.id == n.id) = some b := by
            simp [List.find?_cons, hbn]
          simp only [Function.comp]
          rw [if_pos hn, if_pos hb, hfb,
            if_pos (show origIds.contains n.id = true from hnid ▸ hb), hcons]
        · have hbn : ¬ (b.id == n.id) = true := fun he =>
            hn (beq_iff_eq.mpr (beq_iff_eq.mp he).symm)
          have hcons : (b :: t).find? (fun x => x.id == n.id) =
              t.find? (fun x => x.id == n.id) := by
            simp [List.find?_cons, hbn]
          simp only [Function.comp]
          rw [if_neg hn, hcons]
      rw [hmapeq]
      have hfilter : (b :: t).filter (fun x => !(origIds.contains x.id)) =
          t.filter (fun x => !(origIds.contains x.id)) := by
        rw [List.filter_cons, if_neg (by rw [hb]; simp)]
      rw [hfilter]
    · rw [show upsertStep origIds acc b = acc ++ [b] from by
        rw [upsertStep, if_neg hb]]
      rw [ih hbt _]
      rw [List.map_append]
      have hbf : origIds.contains b.id = false := by
        cases hcb : origIds.contains b.id
        · rfl
        · exact absurd hcb hb
      have hfb2 : ([b].map (fun n => if origIds.contains n.id then
          match t.find? (fun x => x.id == n.id) with
          | some x => x
          | none => n
        else n)) = [b] := by
        simp only [List.map_cons, List.map_nil]
        rw [if_neg hb]
      rw [hfb2]
      have hmapeq : acc.map (fun n => if origIds.contains n.id then
          match t.find? (fun x => x.id == n.id) with
          | some x => x
          | none => n
        else n) =
          acc.map (fun n => if origIds.contains n.id then
            match (b :: t).find? (fun x => x.id == n.id) with
            | some x => x
            | none => n
          else n) := by
        apply List.map_congr_left
        intro n _
        by_cases hc : origIds.contains n.id = true
        · have hbn : ¬ (b.id == n.id) = true := fun he =>
            hb ((beq_iff_eq.mp he) ▸ hc)
          have hcons : (b :: t).find? (fun x => x.id == n.id) =
              t.find? (fun x => x.id == n.id) := by
            simp [List.find?_cons, hbn]
          rw [hcons]
        · rw [if_neg hc, if_neg hc]
      rw [hmapeq]
      have hfilter : (b :: t).filter (fun x => !(origIds.contains x.id)) =
          b :: t.filter (fun x => !(origIds.contains x.id)) := by
        rw [List.filter_cons, if_pos (by rw [hbf]; rfl)]
      rw [hfilter, List.append_assoc]
      rfl

lemma upsertNodes_eq (base ds : List Node)
    (hd : (ds.map Node.id).Nodup) :
    upsertNodes base ds =
      base.map (fun n =>
        match ds.find? (fun x => x.id == n.id) with
        | some x => x
        | none => n)
      ++ ds.filter (fun x => !((base.map Node.id).contains x.id)) := by
  rw [upsertNodes, foldl_upsertStep _ _ hd base]
  congr 1
  apply List.map_congr_left
  intro n hn
  have hc : (base.map Node.id).contains n.id = true :=
    List.elem_eq_true_of_mem (List.mem_map_of_mem Node.id hn)
  rw [if_pos hc]

/-- The nodes a delta reports as new or updated (value of
`deltaNodesOf` over the two snapshots' maps). -/
def changedNodes (ns1 ns2 : List Node) : List Node :=
  ns2.filter (fun c =>
    match ns1.find? (fun p => p.id == c.id) with
    | none => true
    | some p => !nodesEqual p c)

/-- The node ids a delta reports as removed. -/
def removedNodeIds (ns1 ns2 : List Node) : List String :=
  (ns1.filter (fun p => !(ns2.find? (fun c => c.id == p.id)).isSome)).map
    Node.id

/-- The links a delta reports as added. -/
def addedLinks (ls1 ls2 : List Link) : List Link :=
  ls2.filter (fun c =>
    !(ls1.find? (fun p => linkKey p == linkKey c)).isSome)

/-- The link references a delta reports as removed. -/
def removedLinkRefs (ls1 ls2 : List Link) : List LinkRef :=
  (ls1.filter (fun p =>
    !(ls2.find? (fun c => linkKey c == linkKey p)).isSome)).map
    (fun p => LinkRef.mk p.source p.target)

lemma deltaNodesOf_char' (ns1 ns2 : List Node)
    (hn1 : (ns1.map Node.id).Nodup) (hn2 : (ns2.map Node.id).Nodup) :
    deltaNodesOf (buildNodeMap ns1) (buildNodeMap ns2) =
      changedNodes ns1 ns2 :=
  deltaNodesOf_char ns1 ns2 hn1 hn2

lemma removedNodesOf_char' (ns1 ns2 : List Node)
    (hn1 : (ns1.map Node.id).Nodup) (hn2 : (ns2.map Node.id).Nodup) :
    removedNodesOf (buildNodeMap ns1) (buildNodeMap ns2) =
      removedNodeIds ns1 ns2 :=
  removedNodesOf_char ns1 ns2 hn1 hn2

lemma deltaLinksOf_char' (ls1 ls2 : List Link)
    (hl1 : (ls1.map linkKey).Nodup) (hl2 : (ls2.map linkKey).Nodup) :
    deltaLinksOf (buildLinkMap ls1) (buildLinkMap ls2) =
      addedLinks ls1 ls2 :=
  deltaLinksOf_char ls1 ls2 hl1 hl2

lemma removedLinksOf_char' (ls1 ls2 : List Link)
    (hl1 : (ls1.map linkKey).Nodup) (hl2 : (ls2.map linkKey).Nodup) :
    removedLinksOf (buildLinkMap ls1) (buildLinkMap ls2) =
      removedLinkRefs ls1 ls2 :=
  removedLinksOf_char ls1 ls2 hl1 hl2

lemma bnot_isSome_eq_true {α : Type} {o : Option α} :
    (!o.isSome) = true ↔ o = none := by cases o <;> simp

lemma contains_eq_false_iff {l : List String} {a : String} :
    l.contains a = false ↔ a ∉ l := by
  constructor
  · intro h hm
    have := List.elem_eq_true_of_mem hm
    rw [show (List.elem a l) = l.contains a from rfl, h] at this
    cases this
  · intro h
    cases hc : l.contains a
    · rfl
    · exact absurd (List.elem_iff.mp hc) h

lemma mem_removedNodeIds {ns1 ns2 : List Node} {x : String} :
    x ∈ removedNodeIds ns1 ns2 ↔
      ∃ p ∈ ns1, p.id = x ∧
        ns2.find? (fun c => c.id == p.id) = none := by
  constructor
  · intro h
    obtain ⟨p, hp, hpid⟩ := List.mem_map.mp h
    obtain ⟨hp1, hpf⟩ := List.mem_filter.mp hp
    exact ⟨p, hp1, hpid, bnot_isSome_eq_true.mp hpf⟩
  · rintro ⟨p, hp, hpid, hpf⟩
    exact List.mem_map.mpr ⟨p,
      List.mem_filter.mpr ⟨hp, bnot_isSome_eq_true.mpr hpf⟩, hpid⟩

lemma mem_removedLinkRefs {ls1 ls2 : List Link} {r : LinkRef} :
    r ∈ removedLinkRefs ls1 ls2 ↔
      ∃ p ∈ ls1, r = LinkRef.mk p.source p.target ∧
        ls2.find? (fun c => linkKey c == linkKey p) = none := by
  constructor
  · intro h
    obtain ⟨p, hp, hpr⟩ := List.mem_map.mp h
    obtain ⟨hp1, hpf⟩ := List.mem_filter.mp hp
    exact ⟨p, hp1, hpr.symm, bnot_isSome_eq_true.mp hpf⟩
  · rintro ⟨p, hp, hpr, hpf⟩
    exact List.mem_map.mpr ⟨p,
      List.mem_filter.mpr ⟨hp, bnot_isSome_eq_true.mpr hpf⟩, hpr.symm⟩

lemma mem_addedLinks {ls1 ls2 : List Link} {l : Link} :
    l ∈ addedLinks ls1 ls2 ↔ l ∈ ls2 ∧
      ls1.find? (fun p => linkKey p == linkKey l) = none := by
  constructor
  · intro h
    obtain ⟨h2, hf⟩ := List.mem_filter.mp h
    exact ⟨h2, bnot_isSome_eq_true.mp hf⟩
  · rintro ⟨h2, hf⟩
    exact List.mem_filter.mpr ⟨h2, bnot_isSome_eq_true.mpr hf⟩

lemma removedNodeIds_not_in_ns2 {ns1 ns2 : List Node} {x : String}
    (h : x ∈ removedNodeIds ns1 ns2) : x ∉ ns2.map Node.id := by
  obtain ⟨p, _, hpid, hfn⟩ := mem_removedNodeIds.mp h
  intro hx
  obtain ⟨c, hc, hcid⟩ := List.mem_map.mp hx
  exact List.find?_eq_none.mp hfn c hc
    (beq_iff_eq.mpr (hcid.trans hpid.symm))

lemma roundtrip_nodes (ns1 ns2 : List Node)
    (hn1 : (ns1.map Node.id).Nodup) (hn2 : (ns2.map Node.id).Nodup) :
    (∀ n ∈ upsertNodes
        (ns1.filter (fun n => !((removedNodeIds ns1 ns2).contains n.id)))
        (changedNodes ns1 ns2),
      ∃ m ∈ ns2, n.id = m.id ∧ nodesEqual n m = true) ∧
    (∀ m ∈ ns2, ∃ n ∈ upsertNodes
        (ns1.filter (fun n => !((removedNodeIds ns1 ns2).contains n.id)))
        (changedNodes ns1 ns2),
      n.id = m.id ∧ nodesEqual n m = true) := by
  have hchg_nodup : ((changedNodes ns1 ns2).map Node.id).Nodup :=
    hn2.sublist ((List.filter_sublist ns2).map Node.id)
  rw [upsertNodes_eq _ _ hchg_nodup]
  have hmem_base : ∀ n ∈ ns1,
      (ns2.find? (fun c => c.id == n.id)).isSome = true →
      n ∈ ns1.filter (fun n =>
        !((removedNodeIds ns1 ns2).contains n.id)) := by
    intro n hn hsome
    refine List.mem_filter.mpr ⟨hn, ?_⟩
    have hcf : (removedNodeIds ns1 ns2).contains n.id = false := by
      cases hcc : (removedNodeIds ns1 ns2).contains n.id
      · rfl
      · exfalso
        obtain ⟨p, hp, hpid, hfnone⟩ :=
          mem_removedNodeIds.mp (List.elem_iff.mp hcc)
        have hpn : p = n := List.inj_on_of_nodup_map hn1 hp hn hpid
        rw [hpn] at hfnone
        rw [hfnone] at hsome
        cases hsome
    rw [hcf]
    rfl
  constructor
  · intro n hn
    rcases List.mem_append.mp hn with hrep | hnew
    · obtain ⟨nb, hnb, hre⟩ := List.mem_map.mp hrep
      have hnb1 : nb ∈ ns1 := (List.mem_filter.mp hnb).1
      cases hfd : (changedNodes ns1 ns2).find? (fun x => x.id == nb.id) with
      | some x =>
        rw [hfd] at hre
        have hxn : x = n := hre
        have hxmem : x ∈ changedNodes ns1 ns2 :=
          List.mem_of_find?_eq_some hfd
        have hx2 : x ∈ ns2 := (List.mem_filter.mp hxmem).1
        rw [hxn] at hx2
        exact ⟨n, hx2, rfl, nodesEqual_refl n⟩
      | none =>
        rw [hfd] at hre
        have hnbn : nb = n := hre
        have hcf := (List.mem_filter.mp hnb).2
        have hsome : (ns2.find? (fun c => c.id == nb.id)).isSome = true := by
          cases hfs : ns2.find? (fun c => c.id == nb.id) with
          | some c0 => rfl
          | none =>
            exfalso
            have hmemrn : nb.id ∈ removedNodeIds ns1 ns2 :=
              mem_removedNodeIds.mpr ⟨nb, hnb1, rfl, hfs⟩
            have h2 : (removedNodeIds ns1 ns2).contains nb.id = true :=
              List.elem_eq_true_of_mem hmemrn
            rw [h2] at hcf
            simp at hcf
        obtain ⟨c0, hfc0⟩ := Option.isSome_iff_exists.mp hsome
        have hc0 : c0 ∈ ns2 := List.mem_of_find?_eq_some hfc0
        have hc0beq := List.find?_some hfc0
        have hc0id : c0.id = nb.id := beq_iff_eq.mp hc0beq
        have hfns1 : ns1.find? (fun p => p.id == c0.id) = some nb :=
          find?_f_eq_some Node.id ns1 hn1 nb hnb1 c0.id hc0id.symm
        have hc0chg : c0 ∉ changedNodes ns1 ns2 := by
          intro hcc
          exact List.find?_eq_none.mp hfd c0 hcc (beq_iff_eq.mpr hc0id)
        have hnbeq : nodesEqual nb c0 = true := by
          cases hcc : nodesEqual nb c0
          · exfalso
            apply hc0chg
            refine List.mem_filter.mpr ⟨hc0, ?_⟩
            rw [hfns1]
            show (!nodesEqual nb c0) = true
            rw [hcc]
            rfl
          · rfl
        refine ⟨c0, hc0, ?_, ?_⟩
        · rw [← hnbn]
          exact hc0id.symm
        · rw [← hnbn]
          exact hnbeq
    · have hmemf := List.mem_filter.mp hnew
      have hn2' : n ∈ ns2 := (List.mem_filter.mp hmemf.1).1
      exact ⟨n, hn2', rfl, nodesEqual_refl n⟩
  · intro m hm
    cases hf1 : ns1.find? (fun p => p.id == m.id) with
    | some p =>
      have hp1 : p ∈ ns1 := List.mem_of_find?_eq_some hf1
      have hpbeq := List.find?_some hf1
      have hpid : p.id = m.id := beq_iff_eq.mp hpbeq
      have hsome : (ns2.find? (fun c => c.id == p.id)).isSome = true := by
        rw [find?_f_eq_some Node.id ns2 hn2 m hm p.id hpid.symm]
        rfl
      have hpbase := hmem_base p hp1 hsome
      by_cases hchg : nodesEqual p m = true
      · have hfd : (changedNodes ns1 ns2).find?
            (fun x => x.id == p.id) = none := by
          rw [List.find?_eq_none]
          intro x hx hxe
          have hx2 : x ∈ ns2 := (List.mem_filter.mp hx).1
          have hxm : x = m := List.inj_on_of_nodup_map hn2 hx2 hm
            ((beq_iff_eq.mp hxe).trans hpid)
          have hp2 := (List.mem_filter.mp hx).2
          rw [hxm] at hp2
          rw [hf1] at hp2
          have hp2' : (!nodesEqual p m) = true := hp2
          rw [hchg] at hp2'
          simp at hp2'
        refine ⟨p, ?_, hpid, hchg⟩
        refine List.mem_append.mpr (Or.inl (List.mem_map.mpr
          ⟨p, hpbase, ?_⟩))
        rw [hfd]
      · have hnef : nodesEqual p m = false := by
          cases hcc : nodesEqual p m
          · rfl
          · exact absurd hcc hchg
        have hmchg : m ∈ changedNodes ns1 ns2 := by
          refine List.mem_filter.mpr ⟨hm, ?_⟩
          rw [hf1]
          show (!nodesEqual p m) = true
          rw [hnef]
          rfl
        have hfd : (changedNodes ns1 ns2).find?
            (fun x => x.id == p.id) = some m :=
          find?_f_eq_some Node.id (changedNodes ns1 ns2) hchg_nodup m
            hmchg p.id hpid.symm
        refine ⟨m, ?_, rfl, nodesEqual_refl m⟩
        refine List.mem_append.mpr (Or.inl (List.mem_map.mpr
          ⟨p, hpbase, ?_⟩))
        rw [hfd]
    | none =>
      have hmchg : m ∈ changedNodes ns1 ns2 := by
        refine List.mem_filter.mpr ⟨hm, ?_⟩
        rw [hf1]
      have hnb : ((ns1.filter (fun n =>
          !((removedNodeIds ns1 ns2).contains n.id))).map
            Node.id).contains m.id = false := by
        cases hcc : ((ns1.filter (fun n =>
            !((removedNodeIds ns1 ns2).contains n.id))).map
              Node.id).contains m.id
        · rfl
        · exfalso
          obtain ⟨q, hq, hqid⟩ := List.mem_map.mp (List.elem_iff.mp hcc)
          have hq1 : q ∈ ns1 := (List.mem_filter.mp hq).1
          exact List.find?_eq_none.mp hf1 q hq1 (beq_iff_eq.mpr hqid)
      refine ⟨m, ?_, rfl, nodesEqual_refl m⟩
      refine List.mem_append.mpr (Or.inr (List.mem_filter.mpr
        ⟨hmchg, ?_⟩))
      rw [hnb]
      rfl

/-- The mirror's links after applying the delta's removal phases. -/
def survivedLinks (ns1 ns2 : List Node) (ls1 ls2 : List Link) : List Link :=
  (ls1.filter (fun l =>
    !((removedNodeIds ns1 ns2).contains l.source) &&
    !((removedNodeIds ns1 ns2).contains l.target))).filter (fun l =>
    !(((removedLinkRefs ls1 ls2).map
      (fun r => r.source ++ "-" ++ r.target)).contains (linkKey l)))

/-- The mirror's links after fully applying the delta. -/
def finalLinks (ns1 ns2 : List Node) (ls1 ls2 : List Link) : List Link :=
  survivedLinks ns1 ns2 ls1 ls2 ++ (addedLinks ls1 ls2).filter (fun l =>
    !(((survivedLinks ns1 ns2 ls1 ls2).map linkKey).contains (linkKey l)))

lemma roundtrip_links (ns1 ns2 : List Node) (ls1 ls2 : List Link)
    (hcross : ∀ l1 ∈ ls1, ∀ l2 ∈ ls2, linkKey l1 = linkKey l2 →
      l1.source = l2.source ∧ l1.target = l2.target)
    (hdangle : ∀ l ∈ ls2, l.source ∈ ns2.map Node.id ∧
      l.target ∈ ns2.map Node.id) :
    (∀ l ∈ finalLinks ns1 ns2 ls1 ls2, ∃ k ∈ ls2,
      l.source = k.source ∧ l.target = k.target) ∧
    (∀ k ∈ ls2, ∃ l ∈ finalLinks ns1 ns2 ls1 ls2,
      l.source = k.source ∧ l.target = k.target) := by
  constructor
  · intro l hl
    rcases List.mem_append.mp hl with hsurv | hadd
    · obtain ⟨hl12, hg2⟩ := List.mem_filter.mp hsurv
      obtain ⟨hl1, _hg1⟩ := List.mem_filter.mp hl12
      cases hf2 : ls2.find? (fun c => linkKey c == linkKey l) with
      | some c =>
        have hc2 : c ∈ ls2 := List.mem_of_find?_eq_some hf2
        have hcbeq := List.find?_some hf2
        have hck : linkKey c = linkKey l := beq_iff_eq.mp hcbeq
        obtain ⟨hs, ht⟩ := hcross l hl1 c hc2 hck.symm
        exact ⟨c, hc2, hs, ht⟩
      | none =>
        exfalso
        have hrm : LinkRef.mk l.source l.target ∈ removedLinkRefs ls1 ls2 :=
          mem_removedLinkRefs.mpr ⟨l, hl1, rfl, hf2⟩
        have hkm : linkKey l ∈ (removedLinkRefs ls1 ls2).map
            (fun r => r.source ++ "-" ++ r.target) :=
          List.mem_map.mpr ⟨LinkRef.mk l.source l.target, hrm, rfl⟩
        have hcon : ((removedLinkRefs ls1 ls2).map
            (fun r => r.source ++ "-" ++ r.target)).contains (linkKey l)
              = true := List.elem_eq_true_of_mem hkm
        rw [hcon] at hg2
        simp at hg2
    · obtain ⟨haddm, _⟩ := List.mem_filter.mp hadd
      have h2 : l ∈ ls2 := (mem_addedLinks.mp haddm).1
      exact ⟨l, h2, rfl, rfl⟩
  · intro k hk
    cases hf1 : ls1.find? (fun p => linkKey p == linkKey k) with
    | some p =>
      have hp1 : p ∈ ls1 := List.mem_of_find?_eq_some hf1
      have hpbeq := List.find?_some hf1
      have hpk : linkKey p = linkKey k := beq_iff_eq.mp hpbeq
      obtain ⟨hs, ht⟩ := hcross p hp1 k hk hpk
      have hsrc : (removedNodeIds ns1 ns2).contains p.source = false := by
        rw [hs]
        rcases hdangle k hk with ⟨hks, _⟩
        exact contains_eq_false_iff.mpr
          (fun hm => removedNodeIds_not_in_ns2 hm hks)
      have htgt : (removedNodeIds ns1 ns2).contains p.target = false := by
        rw [ht]
        rcases hdangle k hk with ⟨_, hkt⟩
        exact contains_eq_false_iff.mpr
          (fun hm => removedNodeIds_not_in_ns2 hm hkt)
      have hg1 : p ∈ ls1.filter (fun l =>
          !((removedNodeIds ns1 ns2).contains l.source) &&
          !((removedNodeIds ns1 ns2).contains l.target)) :=
        List.mem_filter.mpr ⟨hp1, by rw [hsrc, htgt]; rfl⟩
      have hg2 : ((removedLinkRefs ls1 ls2).map
          (fun r => r.source ++ "-" ++ r.target)).contains (linkKey p)
            = false := by
        cases hcc : ((removedLinkRefs ls1 ls2).map
            (fun r => r.source ++ "-" ++ r.target)).contains (linkKey p)
        · rfl
        · exfalso
          obtain ⟨r, hr, hrk⟩ := List.mem_map.mp (List.elem_iff.mp hcc)
          obtain ⟨p', hp', hre, hfnone⟩ := mem_removedLinkRefs.mp hr
          have hkp' : linkKey p' = linkKey p := by
            rw [hre] at hrk
            exact hrk
          exact List.find?_eq_none.mp hfnone k hk
            (beq_iff_eq.mpr (hkp'.trans hpk).symm)
      have hsurv : p ∈ survivedLinks ns1 ns2 ls1 ls2 :=
        List.mem_filter.mpr ⟨hg1, by rw [hg2]; rfl⟩
      exact ⟨p, List.mem_append.mpr (Or.inl hsurv), hs, ht⟩
    | none =>
      have haddm : k ∈ addedLinks ls1 ls2 := mem_addedLinks.mpr ⟨hk, hf1⟩
      have hnk : ((survivedLinks ns1 ns2 ls1 ls2).map linkKey).contains
          (linkKey k) = false := by
        cases hcc : ((survivedLinks ns1 ns2 ls1 ls2).map linkKey).contains
            (linkKey k)
        · rfl
        · exfalso
          obtain ⟨l, hl, hlk⟩ := List.mem_map.mp (List.elem_iff.mp hcc)
          have hl1 : l ∈ ls1 :=
            (List.mem_filter.mp (List.mem_filter.mp hl).1).1
          exact List.find?_eq_none.mp hf1 l hl1 (beq_iff_eq.mpr hlk)
      refine ⟨k, List.mem_append.mpr (Or.inr (List.mem_filter.mpr
        ⟨haddm, by rw [hnk]; rfl⟩)), rfl, rfl⟩

/-- C1 (amended): for well-formed graph states — unique node ids, injective
link keys within and across the two snapshots, and no link of S2 dangling
on a node absent from S2 — applying a non-nil `"delta"` produced by the
tracker (whose previous state is S1) to a mirror equal to S1 yields a
mirror equal to S2: same node set keyed by id with nodes equal under the
tracker's own node equality, and same link set keyed by (Source, Target). -/
theorem roundtrip_delta_apply (ns1 ns2 : List Node) (ls1 ls2 : List Link)
    (hn1 : (ns1.map Node.id).Nodup) (hn2 : (ns2.map Node.id).Nodup)
    (hl1 : (ls1.map linkKey).Nodup) (hl2 : (ls2.map linkKey).Nodup)
    (hcross : ∀ l1 ∈ ls1, ∀ l2 ∈ ls2, linkKey l1 = linkKey l2 →
      l1.source = l2.source ∧ l1.target = l2.target)
    (hdangle : ∀ l ∈ ls2, l.source ∈ ns2.map Node.id ∧
      l.target ∈ ns2.map Node.id)
    (hne : ns1 ≠ [] ∨ ls1 ≠ []) (d : DeltaUpdate)
    (hd : (GenerateDelta (trackerOf ns1 ls1)
        (some ⟨some ns2, some ls2⟩)).1 = .ok (some d)) :
    ((∀ n ∈ (applyDeltaToOriginalData ⟨ns1, ls1⟩ d).nodes,
        ∃ m ∈ ns2, n.id = m.id ∧ nodesEqual n m = true) ∧
      (∀ m ∈ ns2, ∃ n ∈ (applyDeltaToOriginalData ⟨ns1, ls1⟩ d).nodes,
        n.id = m.id ∧ nodesEqual n m = true)) ∧
    ((∀ l ∈ (applyDeltaToOriginalData ⟨ns1, ls1⟩ d).links,
        ∃ k ∈ ls2, l.source = k.source ∧ l.target = k.target) ∧
      (∀ k ∈ ls2, ∃ l ∈ (applyDeltaToOriginalData ⟨ns1, ls1⟩ d).links,
        l.source = k.source ∧ l.target = k.target)) := by
  have hdc := generateDelta_delta_char ns1 ns2 ls1 ls2 hne d hd
  rw [deltaNodesOf_char' ns1 ns2 hn1 hn2,
    removedNodesOf_char' ns1 ns2 hn1 hn2,
    deltaLinksOf_char' ls1 ls2 hl1 hl2,
    removedLinksOf_char' ls1 ls2 hl1 hl2] at hdc
  subst hdc
  constructor
  · rw [applyDelta_nodes]
    exact roundtrip_nodes ns1 ns2 hn1 hn2
  · rw [applyDelta_links]
    exact roundtrip_links ns1 ns2 ls1 ls2 hcross hdangle

/-- Witness for C1's amended theorem: one node whose status changes. -/
theorem roundtrip_delta_apply_witness :
    (([simpleNode "a"] : List Node) ≠ [] ∨ ([] : List Link) ≠ []) ∧
    ((GenerateDelta (trackerOf [simpleNode "a"] [])
        (some ⟨some [{ simpleNode "a" with status := "x" }], some []⟩)).1 =
      .ok (some { type := "delta",
                  nodes := [{ simpleNode "a" with status := "x" }],
                  links := [], removedNodes := [], removedLinks := [] })) ∧
    (((∀ n ∈ (applyDeltaToOriginalData ⟨[simpleNode "a"], []⟩
          { type := "delta",
            nodes := [{ simpleNode "a" with status := "x" }],
            links := [], removedNodes := [], removedLinks := [] }).nodes,
        ∃ m ∈ [{ simpleNode "a" with status := "x" }],
          n.id = m.id ∧ nodesEqual n m = true) ∧
      (∀ m ∈ [{ simpleNode "a" with status := "x" }],
        ∃ n ∈ (applyDeltaToOriginalData ⟨[simpleNode "a"], []⟩
          { type := "delta",
            nodes := [{ simpleNode "a" with status := "x" }],
            links := [], removedNodes := [], removedLinks := [] }).nodes,
          n.id = m.id ∧ nodesEqual n m = true)) ∧
     ((∀ l ∈ (applyDeltaToOriginalData ⟨[simpleNode "a"], []⟩
          { type := "delta",
            nodes := [{ simpleNode "a" with status := "x" }],
            links := [], removedNodes := [], removedLinks := [] }).links,
        ∃ k ∈ ([] : List Link), l.source = k.source ∧ l.target = k.target) ∧
      (∀ k ∈ ([] : List Link),
        ∃ l ∈ (applyDeltaToOriginalData ⟨[simpleNode "a"], []⟩
          { type := "delta",
            nodes := [{ simpleNode "a" with status := "x" }],
            links := [], removedNodes := [], removedLinks := [] }).links,
          l.source = k.source ∧ l.target = k.target))) :=
  ⟨Or.inl (by decide), rfl,
    roundtrip_delta_apply [simpleNode "a"]
      [{ simpleNode "a" with status := "x" }] [] []
      (by decide) (by decide) (by decide) (by decide) (by decide) (by decide)
      (Or.inl (by decide)) _ rfl⟩

/-- C1 counterexample: the round-trip fails as universally stated, because
the tracker passes dangling links through unchanged while the client
reconciler cascade-removes every link touching a removed node. S1 has
nodes a, b and the link (a, b); S2 removes node b but keeps the (now
dangling) link. The delta only reports the removed node, and applying it
to a mirror equal to S1 leaves a mirror with no links at all, while S2
still contains the link (a, b). -/
theorem roundtrip_dangling_link_cex :
    ((GenerateDelta (trackerOf [simpleNode "a", simpleNode "b"]
        [Link.mk "a" "b" 0 "contains"])
      (some ⟨some [simpleNode "a"],
        some [Link.mk "a" "b" 0 "contains"]⟩)).1 =
      .ok (some { type := "delta", nodes := [], links := [],
                  removedNodes := ["b"], removedLinks := [] })) ∧
    (applyDeltaToOriginalData
        ⟨[simpleNode "a", simpleNode "b"], [Link.mk "a" "b" 0 "contains"]⟩
        { type := "delta", nodes := [], links := [],
          removedNodes := ["b"], removedLinks := [] }).links = [] ∧
    (∃ k ∈ [Link.mk "a" "b" 0 "contains"],
      k.source = "a" ∧ k.target = "b") ∧
    ¬ ∃ l ∈ (applyDeltaToOriginalData
        ⟨[simpleNode "a", simpleNode "b"], [Link.mk "a" "b" 0 "contains"]⟩
        { type := "delta", nodes := [], links := [],
          removedNodes := ["b"], removedLinks := [] }).links,
      l.source = "a" ∧ l.target = "b" :=
  ⟨rfl, rfl, by decide, by decide⟩

/-! ## C8: which code mutates the hub's shared state -/

/-- The hub's shared state (`Hub`): the consumer set, `lastData`, and the
delta tracker (the channels and the kubeconfig string carry no mutable
state). -/
structure HubState where
  clients : List ClientConn
  lastData : Option String
  deltaTracker : DeltaTracker
deriving DecidableEq

/-- `Hub.fetchAndBroadcast`, the body run by the poll-timer goroutine
(`go func() { for range ticker.C ... }` inside `Hub.Run`), as a state
transformer. `fetched` stands for the collector fetch plus the JSON parse
(either failure abandons the tick with no mutation); `data` is the raw
serialized graph. Returns the new hub state and the payload handed to the
broadcast channel, if any; serializing the delta cannot fail in this
model. -/
def hubFetchAndBroadcast (h : HubState) (fetched : Except String Graph)
    (data : String) : HubState × Option DeltaUpdate :=
  match fetched with
  | .error _ => (h, none)
  | .ok graph =>
    match GenerateDelta h.deltaTracker (some graph) with
    | (.error _, dt2) => ({ h with deltaTracker := dt2 }, none)
    | (.ok none, dt2) => ({ h with deltaTracker := dt2 }, none)
    | (.ok (some du), dt2) =>
        ({ h with deltaTracker := dt2, lastData := some data }, some du)

/-- `Hub.sendInitialData`, run as its own goroutine per registration
(`go h.sendInitialData(client)`), as a state transformer. `fetched` stands
for fetch plus parse, `data` for the raw graph bytes and `fullJSON` for
the serialized full update the goroutine builds. A Go client's pointer
identity is modelled by structural equality; nil node/link containers
would crash the goroutine and are modelled as leaving the state
unchanged. -/
def hubSendInitialData (h : HubState) (client : ClientConn)
    (fetched : Except String Graph) (data fullJSON : String) : HubState :=
  match fetched with
  | .error _ => h
  | .ok graph =>
    match graph.nodes, graph.links with
    | some _, some _ =>
        let h1 := if h.lastData = none then { h with lastData := some data }
          else h
        if client.sendQueue.length < client.sendCap then
          { h1 with clients := h1.clients.map (fun c =>
              if c == client then
                { c with sendQueue := c.sendQueue ++ [fullJSON] }
              else c) }
        else
          { h1 with clients := h1.clients.filter (fun c => !(c == client)) }
    | _, _ => h

/-- C8: the code refutes the single-writer claim. `fetchAndBroadcast`,
which runs on the poll-timer goroutine, directly mutates the delta
tracker's previous state and `lastData`; `sendInitialData`, which runs as
its own goroutine per registration, writes `lastData` and deletes a
consumer from the set — all outside the hub select loop. Evaluated here at
concrete inputs: a tick fetching a one-node graph changes the tracker and
`lastData`, and a bootstrap hitting a full client queue removes the client
and writes `lastData`. -/
theorem concurrent_goroutines_mutate_hub_state :
    ((hubFetchAndBroadcast ⟨[], none, NewDeltaTracker⟩
        (.ok ⟨some [simpleNode "a"], some []⟩) "data").1.deltaTracker ≠
      NewDeltaTracker) ∧
    ((hubFetchAndBroadcast ⟨[], none, NewDeltaTracker⟩
        (.ok ⟨some [simpleNode "a"], some []⟩) "data").1.lastData =
      some "data") ∧
    ((hubSendInitialData ⟨[⟨1, ["old"], 1, false⟩], none, NewDeltaTracker⟩
        ⟨1, ["old"], 1, false⟩ (.ok ⟨some [simpleNode "a"], some []⟩)
        "data" "full").clients = []) ∧
    ((hubSendInitialData ⟨[⟨1, ["old"], 1, false⟩], none, NewDeltaTracker⟩
        ⟨1, ["old"], 1, false⟩ (.ok ⟨some [simpleNode "a"], some []⟩)
        "data" "full").lastData = some "data") :=
  ⟨by decide, rfl, rfl, rfl⟩

end KubeUniverse